import Mathlib

/-!
# screenpos: grid addressing, two-key selection and overlay rebuild

A shallow embedding of `screenpos.go`.

* Go's `int` is embedded as `Int`; `/` and `%` are Go's truncating quotient
  and remainder (`Int.tdiv`, `Int.tmod`).  Wrap-around at 64 bits is not
  modelled: every quantity is a screen coordinate or a count of key presses.
* A run-time panic (integer division by zero, slice index out of range, an
  image of non-positive size) is the result `none`.
* The process-wide variables of the program are the fields of `State`; the
  values fixed before the frame loop starts (`w`, `h`, `wCell`, `hCell`,
  `cfg`) are the fields of `Env`.
* Standard output is the list of lines printed so far.
* The overlay image is the rectangle it was allocated with and the sequence
  of `grid.Set` and `text.Draw` calls made on it.
-/

namespace Screenpos

/-! ## Keys -/

/-- The keys of the windowing library that the program names: the letters, the
digits (`Key0` is the library's older name of `KeyDigit0`), the four arrows
and Escape. -/
inductive Key
  | a | b | c | d | e | f | g | h | i | j | k | l | m
  | n | o | p | q | r | s | t | u | v | w | x | y | z
  | digit0 | digit1 | digit2 | digit3 | digit4
  | digit5 | digit6 | digit7 | digit8 | digit9
  | arrowUp | arrowRight | arrowDown | arrowLeft
  | escape
  deriving DecidableEq, Repr

/-- The integer value `int(key)` of a key in the numbering of the windowing
library, the one the remapping of `setCoords` presumes: the key constants are
declared in alphabetical order of their names, so the letters are 0..25, the
arrows 28..31, the digits 0..9 are 43..52, and Escape is 56. -/
def Key.code : Key → Int
  | .a => 0 | .b => 1 | .c => 2 | .d => 3 | .e => 4 | .f => 5 | .g => 6
  | .h => 7 | .i => 8 | .j => 9 | .k => 10 | .l => 11 | .m => 12 | .n => 13
  | .o => 14 | .p => 15 | .q => 16 | .r => 17 | .s => 18 | .t => 19 | .u => 20
  | .v => 21 | .w => 22 | .x => 23 | .y => 24 | .z => 25
  | .arrowDown => 28 | .arrowLeft => 29 | .arrowRight => 30 | .arrowUp => 31
  | .digit0 => 43 | .digit1 => 44 | .digit2 => 45 | .digit3 => 46 | .digit4 => 47
  | .digit5 => 48 | .digit6 => 49 | .digit7 => 50 | .digit8 => 51 | .digit9 => 52
  | .escape => 56

/-- The label alphabet `keys` (line 38). -/
def keys : List String :=
  ["a", "b", "c", "d", "e", "f", "g", "h", "i", "j", "k", "l", "m",
   "n", "o", "p", "q", "r", "s", "t", "u", "v", "w", "x", "y", "z",
   "1", "2", "3", "4", "5", "6", "7", "8", "9"]

/-- The grid size, `gridSize = len(keys)` (line 75). -/
def gridSize : Nat := keys.length

/-- Slice indexing `keys[i]` with a Go `int` index: `none` is the index out of
range panic. -/
def keyAt (i : Int) : Option String :=
  if i < 0 then none else keys[i.toNat]?

/-! ## Configuration and start-up -/

/-- The configurable options (`type config`, lines 41-52). -/
structure Config where
  ArrowColour : String
  ArrowSize : Int
  ArrowOpacity : Int
  FontColour : String
  FontDropColour : String
  FontOpacity : Int
  LineColour : String
  LineDropColour : String
  LineOpacity : Int
  GridStep : Int
  deriving DecidableEq, Repr

/-- The values fixed by `init` before the frame loop. -/
structure Env where
  w : Int
  h : Int
  wCell : Int
  hCell : Int
  cfg : Config
  deriving DecidableEq, Repr

/-- The start-up computation `init` (lines 58-77) for a screen of size
`w` by `h` and the configuration `cfg` it has loaded. -/
def init (w h : Int) (cfg : Config) : Env :=
  { w := w
    h := h
    wCell := Int.tdiv (w + Int.tmod w gridSize) gridSize
    hCell := Int.tdiv (h + Int.tmod h gridSize) gridSize
    cfg := cfg }

/-! ## Colours, the overlay image and the program state -/

/-- The value of `getColour(hex, opacity)` (lines 98-101): the colour channels
are those the hex decoder gives for `hex`, kept here as the string itself, and
the alpha channel is `uint8(opacity)`. -/
structure Colour where
  hex : String
  alpha : Int
  deriving DecidableEq, Repr

/-- The colour `getColour(hex, opacity)`. -/
def getColour (hex : String) (opacity : Int) : Colour :=
  { hex := hex, alpha := opacity % 256 }

/-- One drawing call made on the overlay. -/
inductive DrawOp
  /-- The call `grid.Set(x, y, c)`. -/
  | set (x y : Int) (c : Colour)
  /-- The call `text.Draw(gridImg, str, mplusFont, x, y, c)`. -/
  | text (str : String) (x y : Int) (c : Colour)
  deriving DecidableEq, Repr

/-- The overlay image: the rectangle from `(minX, minY)` to `(maxX, maxY)` it
was allocated with, and the drawing calls made on it, in order. -/
structure Image where
  minX : Int
  minY : Int
  maxX : Int
  maxY : Int
  ops : List DrawOp
  deriving DecidableEq, Repr

/-- Termination signals of `Update`. -/
inductive Err
  | errRegularTermination
  deriving DecidableEq, Repr

/-- The process-wide variables: `keyCol`, `gx`, `gy`, `cx`, `cy`, `exit`
(lines 23-35), the frame counter of the `render` value, the cached overlay
`gridImg`, and the lines written to standard output. -/
structure State where
  keyCol : String
  gx : Int
  gy : Int
  cx : Int
  cy : Int
  exit : Bool
  frames : Int
  gridImg : Option Image
  out : List String
  deriving DecidableEq, Repr

/-- The variables as the program declares them, before `main` runs. -/
def State.initial : State :=
  { keyCol := "", gx := 0, gy := 0, cx := -1, cy := -1, exit := false,
    frames := 0, gridImg := none, out := [] }

/-! ## The rebuild `makeGrid` -/

/-- A counted loop whose body may panic: runs `body` on each element in turn,
threading the loop-carried variable and collecting the drawing calls. -/
def loopM {α σ : Type} (body : α → σ → Option (σ × List DrawOp)) :
    List α → σ → Option (σ × List DrawOp)
  | [], st => some (st, [])
  | a :: rest, st =>
    match body a st with
    | none => none
    | some (st1, o1) =>
      match loopM body rest st1 with
      | none => none
      | some (st2, o2) => some (st2, o1 ++ o2)

/-- The values `0, 1, ..., n-1` of a loop `for i := 0; i < n; i++`. -/
def upTo (n : Int) : List Int :=
  (List.range n.toNat).map Int.ofNat

/-- Body of the vertical sweep (lines 115-125) at `(x, y)`, with
`arrowOpacity` as loop-carried variable. -/
def vBody (env : Env) (s : State) (x y : Int) (arrowOpacity : Int) :
    Option (Int × List DrawOp) :=
  let lines :=
    [DrawOp.set (x * env.wCell) y (getColour env.cfg.LineDropColour env.cfg.LineOpacity),
     DrawOp.set (x * env.wCell - 1) y (getColour env.cfg.LineColour env.cfg.LineOpacity)]
  if env.hCell = 0 then none
  else if Int.tmod y env.hCell < env.cfg.ArrowSize then
    match keyAt x with
    | none => none
    | some kx =>
      let ao1 := if s.keyCol = kx then env.cfg.ArrowOpacity else arrowOpacity
      let ao2 := if s.cx ≠ -1 then Int.tdiv env.cfg.ArrowOpacity 4 else ao1
      some (ao2, lines ++ [DrawOp.set (x * env.wCell) y (getColour env.cfg.ArrowColour ao1)])
  else some (arrowOpacity, lines)

/-- The vertical sweep (lines 113-127). -/
def vSweep (env : Env) (s : State) (arrowOpacity : Int) : Option (Int × List DrawOp) :=
  loopM (fun x ao => loopM (fun y ao1 => vBody env s x y ao1) (upTo env.h) ao)
    (upTo gridSize) arrowOpacity

/-- Body of the horizontal sweep (lines 132-142) at `(x, y)`. -/
def hBody (env : Env) (s : State) (y x : Int) (arrowOpacity : Int) :
    Option (Int × List DrawOp) :=
  let lines :=
    [DrawOp.set x (y * env.hCell) (getColour env.cfg.LineDropColour env.cfg.LineOpacity),
     DrawOp.set x (y * env.hCell - 1) (getColour env.cfg.LineColour env.cfg.LineOpacity)]
  if env.wCell = 0 then none
  else if Int.tmod x env.wCell < env.cfg.ArrowSize then
    match keyAt (Int.tdiv x env.wCell) with
    | none => none
    | some kx =>
      let ao1 := if s.keyCol = kx then env.cfg.ArrowOpacity else arrowOpacity
      let ao2 := if s.cx ≠ -1 then Int.tdiv env.cfg.ArrowOpacity 4 else ao1
      some (ao2, lines ++ [DrawOp.set x (y * env.hCell) (getColour env.cfg.ArrowColour ao1)])
  else some (arrowOpacity, lines)

/-- The horizontal sweep (lines 130-144). -/
def hSweep (env : Env) (s : State) (arrowOpacity : Int) : Option (Int × List DrawOp) :=
  loopM (fun y ao => loopM (fun x ao1 => hBody env s y x ao1) (upTo env.w) ao)
    (upTo gridSize) arrowOpacity

/-- Body of the label loop (lines 155-162) at cell `(x, y)`, with
`fontOpacity` as loop-carried variable. -/
def labelBody (env : Env) (s : State) (x y : Int) (fontOpacity : Int) :
    Option (Int × List DrawOp) :=
  match keyAt x, keyAt y with
  | some kx, some ky =>
    let fo1 := if s.keyCol = kx then env.cfg.FontOpacity else fontOpacity
    let fo2 := if s.cx ≠ -1 then Int.tdiv env.cfg.FontOpacity 4 else fo1
    some (fo2,
      [DrawOp.text (kx ++ ky) (x * env.wCell + 11 - env.cfg.GridStep * s.gx)
         (y * env.hCell + 19 - env.cfg.GridStep * s.gy)
         (getColour env.cfg.FontDropColour fo1),
       DrawOp.text (kx ++ ky) (x * env.wCell + 10 - env.cfg.GridStep * s.gx)
         (y * env.hCell + 18 - env.cfg.GridStep * s.gy)
         (getColour env.cfg.FontColour fo1)])
  | _, _ => none

/-- The label loop (lines 153-164). -/
def labelSweep (env : Env) (s : State) (fontOpacity : Int) : Option (Int × List DrawOp) :=
  loopM (fun x fo => loopM (fun y fo1 => labelBody env s x y fo1) (upTo gridSize) fo)
    (upTo gridSize) fontOpacity

/-- The rebuild `makeGrid` (lines 104-165).  `image.NewRGBA` panics on a
rectangle of negative width or height, and `ebiten.NewImageFromImage` on an
image whose width or height is less than 1. -/
def makeGrid (env : Env) (s : State) : Option State :=
  let minX := env.cfg.GridStep * s.gx
  let minY := env.cfg.GridStep * s.gy
  if env.w - minX < 0 ∨ env.h - minY < 0 then none
  else
    let arrowOpacity := if s.cx ≠ -1 then 0 else env.cfg.ArrowOpacity
    match vSweep env s arrowOpacity with
    | none => none
    | some (ao1, ops1) =>
      match hSweep env s ao1 with
      | none => none
      | some (_, ops2) =>
        if env.w - minX < 1 ∨ env.h - minY < 1 then none
        else
          let fontOpacity := if s.cx ≠ -1 then Int.tdiv env.cfg.FontOpacity 4 else env.cfg.FontOpacity
          match labelSweep env s fontOpacity with
          | none => none
          | some (_, ops3) =>
            let img : Image :=
              { minX := minX, minY := minY, maxX := env.w, maxY := env.h,
                ops := ops1 ++ ops2 ++ ops3 }
            some { s with gridImg := some img }

/-! ## Selection, panning and the frame step -/

/-- The line `fmt.Println(x, y)` writes for two integers. -/
def printLine (x y : Int) : String :=
  toString x ++ " " ++ toString y

/-- The alphabet index `setCoords` computes from a key (lines 170-176, and
again lines 181-187): `int(key)`, less 18 when above 25, and 35 for `Key0`. -/
def decodeKey (key : Key) : Int :=
  let c := key.code
  let c := if c > 25 then c - 18 else c
  if key = Key.digit0 then 35 else c

/-- The selection step `setCoords` (lines 168-191). -/
def setCoords (env : Env) (s : State) (key : Key) : Option State :=
  if s.cx = -1 then
    makeGrid env { s with cx := decodeKey key }
  else if s.cy = -1 then
    let cy := decodeKey key
    some { s with
      cy := cy
      out := s.out ++ [printLine (env.wCell * s.cx - env.cfg.GridStep * s.gx)
                         (env.hCell * cy - env.cfg.GridStep * s.gy)]
      exit := true }
  else some s

/-- The `switch` of `moveGrid` (lines 195-204): the change of the pan offset. -/
def pan (s : State) (key : Key) : State :=
  match key with
  | Key.arrowUp => { s with gy := s.gy + 1 }
  | Key.arrowRight => { s with gx := s.gx - 1 }
  | Key.arrowDown => { s with gy := s.gy - 1 }
  | Key.arrowLeft => { s with gx := s.gx + 1 }
  | _ => s

/-- The pan step `moveGrid` (lines 194-206). -/
def moveGrid (env : Env) (s : State) (key : Key) : Option State :=
  makeGrid env (pan s key)

/-- What the input layer reports in one frame: which keys are held
(`ebiten.IsKeyPressed`) and which were released in this frame
(`inpututil.IsKeyJustReleased`). -/
structure Input where
  pressed : Key → Bool
  justReleased : Key → Bool

/-- The key listeners of `Update` (the `switch` of lines 218-332), run on the
state `s1`. -/
def keyListeners (env : Env) (s1 : State) (inp : Input) : Option State :=
  if inp.justReleased Key.a then setCoords env { s1 with keyCol := "a" } Key.a
  else if inp.justReleased Key.b then setCoords env { s1 with keyCol := "b" } Key.b
  else if inp.justReleased Key.c then setCoords env { s1 with keyCol := "c" } Key.c
  else if inp.justReleased Key.d then setCoords env { s1 with keyCol := "d" } Key.d
  else if inp.justReleased Key.e then setCoords env { s1 with keyCol := "e" } Key.e
  else if inp.justReleased Key.f then setCoords env { s1 with keyCol := "f" } Key.f
  else if inp.justReleased Key.g then setCoords env { s1 with keyCol := "g" } Key.g
  else if inp.justReleased Key.h then setCoords env { s1 with keyCol := "h" } Key.h
  else if inp.justReleased Key.i then setCoords env { s1 with keyCol := "i" } Key.i
  else if inp.justReleased Key.j then setCoords env { s1 with keyCol := "j" } Key.j
  else if inp.justReleased Key.k then setCoords env { s1 with keyCol := "k" } Key.k
  else if inp.justReleased Key.l then setCoords env { s1 with keyCol := "l" } Key.l
  else if inp.justReleased Key.m then setCoords env { s1 with keyCol := "m" } Key.m
  else if inp.justReleased Key.n then setCoords env { s1 with keyCol := "n" } Key.n
  else if inp.justReleased Key.o then setCoords env { s1 with keyCol := "o" } Key.o
  else if inp.justReleased Key.p then setCoords env { s1 with keyCol := "p" } Key.p
  else if inp.justReleased Key.q then setCoords env { s1 with keyCol := "q" } Key.q
  else if inp.justReleased Key.r then setCoords env { s1 with keyCol := "r" } Key.r
  else if inp.justReleased Key.s then setCoords env { s1 with keyCol := "s" } Key.s
  else if inp.justReleased Key.t then setCoords env { s1 with keyCol := "t" } Key.t
  else if inp.justReleased Key.u then setCoords env { s1 with keyCol := "u" } Key.u
  else if inp.justReleased Key.v then setCoords env { s1 with keyCol := "v" } Key.v
  else if inp.justReleased Key.w then setCoords env { s1 with keyCol := "w" } Key.w
  else if inp.justReleased Key.x then setCoords env { s1 with keyCol := "x" } Key.x
  else if inp.justReleased Key.y then setCoords env { s1 with keyCol := "y" } Key.y
  else if inp.justReleased Key.z then setCoords env { s1 with keyCol := "z" } Key.z
  else if inp.justReleased Key.digit1 then setCoords env { s1 with keyCol := "1" } Key.digit1
  else if inp.justReleased Key.digit2 then setCoords env { s1 with keyCol := "2" } Key.digit2
  else if inp.justReleased Key.digit3 then setCoords env { s1 with keyCol := "3" } Key.digit3
  else if inp.justReleased Key.digit4 then setCoords env { s1 with keyCol := "4" } Key.digit4
  else if inp.justReleased Key.digit5 then setCoords env { s1 with keyCol := "5" } Key.digit5
  else if inp.justReleased Key.digit6 then setCoords env { s1 with keyCol := "6" } Key.digit6
  else if inp.justReleased Key.digit7 then setCoords env { s1 with keyCol := "7" } Key.digit7
  else if inp.justReleased Key.digit8 then setCoords env { s1 with keyCol := "8" } Key.digit8
  else if inp.justReleased Key.digit9 then setCoords env { s1 with keyCol := "9" } Key.digit9
  else if inp.justReleased Key.arrowUp then moveGrid env s1 Key.arrowUp
  else if inp.justReleased Key.arrowRight then moveGrid env s1 Key.arrowRight
  else if inp.justReleased Key.arrowDown then moveGrid env s1 Key.arrowDown
  else if inp.justReleased Key.arrowLeft then moveGrid env s1 Key.arrowLeft
  else some s1

/-- The frame step `Update` (lines 209-337): the state after the frame and the
error returned, or `none` when the frame panics. -/
def Update (env : Env) (s : State) (inp : Input) : Option (State × Option Err) :=
  let s1 := { s with frames := s.frames + 1 }
  if inp.pressed Key.escape then some (s1, some Err.errRegularTermination)
  else
    match keyListeners env s1 inp with
    | none => none
    | some s2 =>
      if s2.exit then some (s2, some Err.errRegularTermination)
      else some (s2, none)

/-! ## Vocabulary of the statements -/

/-- The string `Update` assigns to `keyCol` before it calls `setCoords` with
the key (lines 219-323); `none` for a key that is not a label key. -/
def labelOf : Key → Option String
  | Key.a => some "a" | Key.b => some "b" | Key.c => some "c" | Key.d => some "d"
  | Key.e => some "e" | Key.f => some "f" | Key.g => some "g" | Key.h => some "h"
  | Key.i => some "i" | Key.j => some "j" | Key.k => some "k" | Key.l => some "l"
  | Key.m => some "m" | Key.n => some "n" | Key.o => some "o" | Key.p => some "p"
  | Key.q => some "q" | Key.r => some "r" | Key.s => some "s" | Key.t => some "t"
  | Key.u => some "u" | Key.v => some "v" | Key.w => some "w" | Key.x => some "x"
  | Key.y => some "y" | Key.z => some "z"
  | Key.digit1 => some "1" | Key.digit2 => some "2" | Key.digit3 => some "3"
  | Key.digit4 => some "4" | Key.digit5 => some "5" | Key.digit6 => some "6"
  | Key.digit7 => some "7" | Key.digit8 => some "8" | Key.digit9 => some "9"
  | _ => none

/-- The 35 label keys: the letters and the digits 1 to 9. -/
def isLabelKey (key : Key) : Bool :=
  (labelOf key).isSome

/-- The four arrow keys. -/
def isArrowKey : Key → Bool
  | Key.arrowUp | Key.arrowRight | Key.arrowDown | Key.arrowLeft => true
  | _ => false

/-- The keys the `switch` of `Update` tests, in the order of its cases. -/
def dispatchOrder : List Key :=
  [Key.a, Key.b, Key.c, Key.d, Key.e, Key.f,
   Key.g, Key.h, Key.i, Key.j, Key.k, Key.l,
   Key.m, Key.n, Key.o, Key.p, Key.q, Key.r,
   Key.s, Key.t, Key.u, Key.v, Key.w, Key.x,
   Key.y, Key.z, Key.digit1, Key.digit2, Key.digit3, Key.digit4,
   Key.digit5, Key.digit6, Key.digit7, Key.digit8, Key.digit9, Key.arrowUp,
   Key.arrowRight, Key.arrowDown, Key.arrowLeft]

/-- The key a frame dispatches: the first of `dispatchOrder` that was released
in the frame. -/
def dispatched (inp : Input) : Option Key :=
  dispatchOrder.find? inp.justReleased

/-- What one case of the `switch` does for its key. -/
def keyAction (env : Env) (s1 : State) (key : Key) : Option State :=
  match labelOf key with
  | some l => setCoords env { s1 with keyCol := l } key
  | none => moveGrid env s1 key

/-- A `switch` over the keys of a list, first match wins. -/
def firstMatch (env : Env) (s1 : State) (inp : Input) : List Key → Option State
  | [] => some s1
  | key :: rest =>
    if inp.justReleased key then keyAction env s1 key else firstMatch env s1 inp rest

/-- The horizontal sweep does not panic: at every pixel column `x` of the
screen `wCell` is not zero and, inside the arrow band, `x / wCell` is an index
of `keys`. -/
def hSafe (env : Env) : Bool :=
  (upTo env.w).all fun x =>
    decide (env.wCell ≠ 0) &&
      (!decide (Int.tmod x env.wCell < env.cfg.ArrowSize) ||
        (keyAt (Int.tdiv x env.wCell)).isSome)

/-- The rebuild at pan offset `(gx, gy)` does not panic: the image rectangle
has positive width and height, the vertical sweep does not divide by zero
(`hCell` is not zero when there is a pixel row at all) and the horizontal
sweep is safe. -/
def canBuild (env : Env) (gx gy : Int) : Bool :=
  decide (env.cfg.GridStep * gx < env.w) && decide (env.cfg.GridStep * gy < env.h) &&
    decide (env.h ≤ 0 ∨ env.hCell ≠ 0) && hSafe env

/-- The opacity the label loop carries from one cell to the next. -/
def fontOpacity0 (env : Env) (s : State) : Int :=
  if s.cx ≠ -1 then Int.tdiv env.cfg.FontOpacity 4 else env.cfg.FontOpacity

/-- The opacity rule of the labels of column `x`: full when no column is
chosen or the label of the column is `keyCol`, a quarter otherwise. -/
def labelOpacity (env : Env) (s : State) (x : Int) : Int :=
  if s.cx = -1 ∨ keyAt x = some s.keyCol then env.cfg.FontOpacity
  else Int.tdiv env.cfg.FontOpacity 4

/-- The two-letter label `keys[x] + keys[y]` of cell `(x, y)`. -/
def cellLabel (x y : Int) : String :=
  (keyAt x).getD "" ++ (keyAt y).getD ""

/-- The two draws of the label of cell `(x, y)`: the drop-shadow copy, then
the primary copy. -/
def cellDraws (env : Env) (s : State) (x y : Int) : List DrawOp :=
  [DrawOp.text (cellLabel x y) (x * env.wCell + 11 - env.cfg.GridStep * s.gx)
     (y * env.hCell + 19 - env.cfg.GridStep * s.gy)
     (getColour env.cfg.FontDropColour (labelOpacity env s x)),
   DrawOp.text (cellLabel x y) (x * env.wCell + 10 - env.cfg.GridStep * s.gx)
     (y * env.hCell + 18 - env.cfg.GridStep * s.gy)
     (getColour env.cfg.FontColour (labelOpacity env s x))]

/-- The label draws of a rebuild, cell by cell: columns in order, and in each
column the rows in order. -/
def labelDraws (env : Env) (s : State) : List DrawOp :=
  (upTo gridSize).flatMap fun x => (upTo gridSize).flatMap fun y => cellDraws env s x y

/-- The arrow opacity a rebuild starts its sweeps with (lines 107-110). -/
def arrowOpacity0 (env : Env) (s : State) : Int :=
  if s.cx ≠ -1 then 0 else env.cfg.ArrowOpacity

/-- The image a completed rebuild caches: allocated from
`(GridStep*gx, GridStep*gy)` to `(w, h)`, holding the pixel writes `sets` of
the two sweeps followed by the label draws. -/
def overlay (env : Env) (s : State) (sets : List DrawOp) : Image :=
  { minX := env.cfg.GridStep * s.gx, minY := env.cfg.GridStep * s.gy,
    maxX := env.w, maxY := env.h, ops := sets ++ labelDraws env s }

/-- A run of `moveGrid` over a sequence of key releases, one call per key. -/
def moveGridAll (env : Env) : State → List Key → Option State
  | s, [] => some s
  | s, key :: rest =>
    match moveGrid env s key with
    | none => none
    | some s1 => moveGridAll env s1 rest

/-- Left presses less Right presses in a sequence of keys. -/
def netX (ks : List Key) : Int :=
  (ks.count Key.arrowLeft : Int) - (ks.count Key.arrowRight : Int)

/-- Up presses less Down presses in a sequence of keys. -/
def netY (ks : List Key) : Int :=
  (ks.count Key.arrowUp : Int) - (ks.count Key.arrowDown : Int)

/-- A pixel write, as opposed to a label draw. -/
def isSet : DrawOp → Bool
  | DrawOp.set _ _ _ => true
  | DrawOp.text _ _ _ _ => false

/-- A label draw of the string `str`. -/
def drawsLabel (str : String) : DrawOp → Bool
  | DrawOp.set _ _ _ => false
  | DrawOp.text t _ _ _ => decide (t = str)

/-- A run of the frame loop: `Update` once per frame on the inputs of the
frames in turn; `none` when a frame panics.  The run goes on past a frame that
returns an error, so the states it reaches include every state of the
program, which stops at the first error. -/
def runFrames (env : Env) : State → List Input → Option State
  | s, [] => some s
  | s, inp :: rest =>
    match Update env s inp with
    | none => none
    | some (s1, _) => runFrames env s1 rest

/-- The frame in which exactly the key `key` is released and nothing is
held. -/
def onlyKey (key : Key) : Input :=
  { pressed := fun _ => false, justReleased := fun k1 => decide (k1 = key) }

/-- The invariant of the selection: `cx = -1` implies `cy = -1`; `cy ≠ -1`
exactly when the exit flag is set; no line written while `cy = -1` and exactly
one afterwards; `cx` and `cy` are -1 or an index of the alphabet; and while a
column is chosen and no row is, `keyCol` is the label `keys[cx]`. -/
def frameInv (s : State) : Prop :=
  (s.cx = -1 → s.cy = -1) ∧ (s.cy ≠ -1 ↔ s.exit = true) ∧
  (s.cy = -1 → s.out.length = 0) ∧ (s.cy ≠ -1 → s.out.length = 1) ∧
  (s.cx = -1 ∨ (0 ≤ s.cx ∧ s.cx ≤ 34)) ∧ (s.cy = -1 ∨ (0 ≤ s.cy ∧ s.cy ≤ 34)) ∧
  (s.cx ≠ -1 → s.cy = -1 → keyAt s.cx = some s.keyCol)

/-- The colour a single drawing call stores at pixel `(px, py)`: that of a
`grid.Set` call at exactly that pixel, nothing otherwise. -/
def hitBy (op : DrawOp) (px py : Int) : Option Colour :=
  match op with
  | DrawOp.set x y c => if x = px ∧ y = py then some c else none
  | DrawOp.text _ _ _ _ => none

/-- The colour of the last `grid.Set` call of a sequence at pixel `(px, py)`:
`Set` stores the colour it is given, without blending, so a later call at the
same pixel replaces an earlier one. -/
def lastSet (ops : List DrawOp) (px py : Int) : Option Colour :=
  ops.foldl (fun stored op => (hitBy op px py).or stored) none

/-- The colour the pixel `(px, py)` of the image `grid` holds when the sweeps
are done and it is handed over at line 146, before the labels are drawn on its
copy: `Set` ignores a point outside the rectangle of the image, and inside it
the last call at the pixel decides; `none` for a pixel never written. -/
def gridPixel (img : Image) (px py : Int) : Option Colour :=
  if img.minX ≤ px ∧ px < img.maxX ∧ img.minY ≤ py ∧ py < img.maxY then
    lastSet img.ops px py
  else none

/-- The arrow opacity the sweeps carry from one arrow pixel to the next once
one has been overlaid (lines 122-124, 139-141). -/
def carriedOpacity (env : Env) (s : State) : Int :=
  if s.cx ≠ -1 then Int.tdiv env.cfg.ArrowOpacity 4 else env.cfg.ArrowOpacity

/-- The opacity rule of the arrows for a column of label `k`: full when no
column is chosen or the label is `keyCol`, a quarter otherwise. -/
def arrowRule (env : Env) (s : State) (k : String) : Int :=
  if s.cx = -1 ∨ k = s.keyCol then env.cfg.ArrowOpacity
  else Int.tdiv env.cfg.ArrowOpacity 4

/-- The label `k` is that of the column of the pixel column `px`, as the
sweeps take it: the vertical sweep overlays column `x`, of label `keys[x]`,
at `px = x * wCell`, and the horizontal sweep takes the label
`keys[px / wCell]`. -/
def columnLabel (env : Env) (px : Int) (k : String) : Prop :=
  (∃ x, keyAt x = some k ∧ px = x * env.wCell) ∨ keyAt (Int.tdiv px env.wCell) = some k

/-- A colour that obeys the opacity rule at pixel column `px`: one of the two
line colours, or the arrow colour at the opacity the rule gives for the column
of the pixel. -/
def conforms (env : Env) (s : State) (px : Int) (c : Colour) : Prop :=
  c = getColour env.cfg.LineDropColour env.cfg.LineOpacity ∨
  c = getColour env.cfg.LineColour env.cfg.LineOpacity ∨
  ∃ k, columnLabel env px k ∧ c = getColour env.cfg.ArrowColour (arrowRule env s k)

/-- A pixel write whose colour obeys the opacity rule. -/
def strictOp (env : Env) (s : State) (op : DrawOp) : Prop :=
  ∃ px py c, op = DrawOp.set px py c ∧ conforms env s px c

/-- A pixel write whose colour obeys the opacity rule, or that lands on the
pixel `(0, 0)`. -/
def looseOp (env : Env) (s : State) (op : DrawOp) : Prop :=
  ∃ px py c, op = DrawOp.set px py c ∧ (conforms env s px c ∨ (px = 0 ∧ py = 0))

/-- The carried arrow opacity has settled: it is `carriedOpacity`, or there
is no arrow band at all. -/
def settled (env : Env) (s : State) (ao : Int) : Prop :=
  ao = carriedOpacity env s ∨ env.cfg.ArrowSize ≤ 0

/-- The carried arrow opacity is the one a rebuild starts with, or has
settled. -/
def startOrSettled (env : Env) (s : State) (ao : Int) : Prop :=
  ao = arrowOpacity0 env s ∨ settled env s ao

/-! ## Concrete configurations used as examples -/

/-- A configuration with a pan step of 10 pixels. -/
def exCfg : Config :=
  { ArrowColour := "ff0000", ArrowSize := 1, ArrowOpacity := 200,
    FontColour := "ffffff", FontDropColour := "000000", FontOpacity := 255,
    LineColour := "ffffff", LineDropColour := "000000", LineOpacity := 100,
    GridStep := 10 }

/-- Cells of 30 by 20 pixels on a screen of 1050 by 700. -/
def exEnv : Env :=
  { w := 1050, h := 700, wCell := 30, hCell := 20, cfg := exCfg }

/-- Column `d` (index 3) chosen, no row chosen, pan offset `(2, -1)`. -/
def exColumnChosen : State :=
  { State.initial with keyCol := "d", cx := 3, gx := 2, gy := -1 }

/-- A frame in which only the key `d` is released and nothing is held. -/
def exReleaseD : Input :=
  { pressed := fun _ => false, justReleased := fun key => decide (key = Key.d) }

/-- A frame in which the keys `c` and `f` are released and nothing is held. -/
def exReleaseCF : Input :=
  { pressed := fun _ => false,
    justReleased := fun key => decide (key = Key.f) || decide (key = Key.c) }

/-- A frame in which Escape is held while `d` and the Up arrow are released. -/
def exEscape : Input :=
  { pressed := fun key => decide (key = Key.escape),
    justReleased := fun key => decide (key = Key.d) || decide (key = Key.arrowUp) }

/-- Four Up presses, then one Left press. -/
def exPresses : List Key :=
  [Key.arrowUp, Key.arrowUp, Key.arrowUp, Key.arrowUp, Key.arrowLeft]

/-- A frame in which the Left arrow is released and nothing is held. -/
def exReleaseLeft : Input :=
  { pressed := fun _ => false, justReleased := fun key => decide (key = Key.arrowLeft) }

/-- The state after the first key release `d` from the initial state, before
the rebuild it triggers: column 3 chosen at pan offset `(0, 0)`. -/
def exFirstPick : State :=
  { State.initial with frames := 1, keyCol := "d", cx := 3 }

/-- The example configuration with a pan step of 100 pixels. -/
def exCfgStep100 : Config :=
  { exCfg with GridStep := 100 }

/-- The 1050 by 700 screen with a pan step of 100 pixels. -/
def exEnvStep100 : Env :=
  { exEnv with cfg := exCfgStep100 }

/-! ## Loops -/

theorem loopM_isSome {α σ : Type} (body : α → σ → Option (σ × List DrawOp)) (l : List α)
    (hb : ∀ a ∈ l, ∀ st, (body a st).isSome = true) :
    ∀ st, (loopM body l st).isSome = true := by
  induction l with
  | nil => intro st; simp [loopM]
  | cons a rest ih =>
    intro st
    have h1 := hb a (List.mem_cons_self a rest) st
    obtain ⟨⟨st1, o1⟩, e1⟩ := Option.isSome_iff_exists.mp h1
    have h2 := ih (fun b hb1 => hb b (List.mem_cons_of_mem a hb1)) st1
    obtain ⟨⟨st2, o2⟩, e2⟩ := Option.isSome_iff_exists.mp h2
    simp [loopM, e1, e2]

theorem loopM_const {α σ : Type} (body : α → σ → Option (σ × List DrawOp)) (st : σ)
    (o : α → List DrawOp) (l : List α)
    (hb : ∀ a ∈ l, body a st = some (st, o a)) :
    loopM body l st = some (st, l.flatMap o) := by
  induction l with
  | nil => simp [loopM]
  | cons a rest ih =>
    have e1 := hb a (List.mem_cons_self a rest)
    have e2 := ih (fun b hb1 => hb b (List.mem_cons_of_mem a hb1))
    simp [loopM, e1, e2]

theorem loopM_ops_forall {α σ : Type} (Q : DrawOp → Prop)
    (body : α → σ → Option (σ × List DrawOp))
    (hb : ∀ a st st1 o, body a st = some (st1, o) → ∀ op ∈ o, Q op) :
    ∀ (l : List α) (st st1 : σ) (o : List DrawOp),
      loopM body l st = some (st1, o) → ∀ op ∈ o, Q op := by
  intro l
  induction l with
  | nil =>
    intro st st1 o h op hop
    simp only [loopM, Option.some.injEq, Prod.mk.injEq] at h
    rw [← h.2] at hop
    exact absurd hop (List.not_mem_nil op)
  | cons a rest ih =>
    intro st st1 o h op hop
    simp only [loopM] at h
    cases e1 : body a st with
    | none => simp [e1] at h
    | some r1 =>
      obtain ⟨sa, oa⟩ := r1
      simp only [e1] at h
      cases e2 : loopM body rest sa with
      | none => simp [e2] at h
      | some r2 =>
        obtain ⟨sb, ob⟩ := r2
        simp only [e2, Option.some.injEq, Prod.mk.injEq] at h
        rw [← h.2] at hop
        rcases List.mem_append.mp hop with hm | hm
        · exact hb a st sa oa e1 op hm
        · exact ih sa sb ob e2 op hm

theorem loopM_none {α σ : Type} (body : α → σ → Option (σ × List DrawOp)) (l : List α)
    (a : α) (ha : a ∈ l) (hb : ∀ st, body a st = none) :
    ∀ st, loopM body l st = none := by
  induction l with
  | nil => exact absurd ha (List.not_mem_nil a)
  | cons c rest ih =>
    intro st
    rcases List.mem_cons.mp ha with e | e
    · subst e
      simp [loopM, hb st]
    · cases e1 : body c st with
      | none => simp [loopM, e1]
      | some r => simp [loopM, e1, ih e]

theorem loopM_cons_some {α σ : Type} (body : α → σ → Option (σ × List DrawOp))
    (a : α) (rest : List α) (st st2 : σ) (o : List DrawOp)
    (h : loopM body (a :: rest) st = some (st2, o)) :
    ∃ st1 o1 o2, body a st = some (st1, o1) ∧ loopM body rest st1 = some (st2, o2) ∧
      o = o1 ++ o2 := by
  simp only [loopM] at h
  cases e1 : body a st with
  | none => simp [e1] at h
  | some r1 =>
    obtain ⟨sa, oa⟩ := r1
    simp only [e1] at h
    cases e2 : loopM body rest sa with
    | none => simp [e2] at h
    | some r2 =>
      obtain ⟨sb, ob⟩ := r2
      simp only [e2, Option.some.injEq, Prod.mk.injEq] at h
      exact ⟨sa, oa, ob, rfl, h.1 ▸ e2, h.2.symm⟩

theorem mem_upTo {n x : Int} (hx : x ∈ upTo n) : 0 ≤ x ∧ x < n := by
  simp only [upTo, List.mem_map, List.mem_range] at hx
  obtain ⟨m, hm, rfl⟩ := hx
  constructor
  · exact Int.ofNat_nonneg m
  · have : (m : Int) < (n.toNat : Int) := by exact_mod_cast hm
    have h2 : (n.toNat : Int) = max n 0 := Int.toNat_eq_max n
    simp only [Int.ofNat_eq_coe]
    omega

theorem upTo_mem {n x : Int} (h0 : 0 ≤ x) (h1 : x < n) : x ∈ upTo n := by
  simp only [upTo, List.mem_map, List.mem_range]
  refine ⟨x.toNat, by omega, ?_⟩
  simp only [Int.ofNat_eq_coe]
  omega

theorem zero_mem_upTo {n : Int} (hn : 0 < n) : (0 : Int) ∈ upTo n := by
  simp only [upTo, List.mem_map, List.mem_range]
  exact ⟨0, by omega, rfl⟩

theorem upTo_pos {n : Int} (hn : 0 < n) : ∃ t, upTo n = 0 :: t := by
  obtain ⟨m, hm⟩ : ∃ m, n.toNat = m + 1 := ⟨n.toNat - 1, by omega⟩
  refine ⟨(List.range m).map (fun i => Int.ofNat (i + 1)), ?_⟩
  simp [upTo, hm, List.range_succ_eq_map, Function.comp_def]

theorem upTo_nodup (n : Int) : (upTo n).Nodup := by
  unfold upTo
  apply List.Nodup.map _ (List.nodup_range _)
  intro a b h
  exact Int.ofNat.inj h

theorem keyAt_isSome {x : Int} (h0 : 0 ≤ x) (h1 : x < 35) : (keyAt x).isSome = true := by
  have hlt : x.toNat < keys.length := by
    have : keys.length = 35 := by decide
    omega
  simp [keyAt, not_lt.mpr h0, List.getElem?_eq_getElem hlt]

/-! ## When the rebuild completes -/

theorem vSweep_isSome (env : Env) (s : State) (ao : Int)
    (hh0 : env.h ≤ 0 ∨ env.hCell ≠ 0) :
    (vSweep env s ao).isSome = true := by
  unfold vSweep
  apply loopM_isSome
  intro x hx st
  apply loopM_isSome
  intro y hy st1
  have hh : env.hCell ≠ 0 := by
    rcases hh0 with h | h
    · have := mem_upTo hy
      omega
    · exact h
  obtain ⟨kx, hkx⟩ := Option.isSome_iff_exists.mp
    (keyAt_isSome (mem_upTo hx).1 (by have := (mem_upTo hx).2; simpa [gridSize, keys] using this))
  unfold vBody
  simp only [hh, if_false, hkx]
  split <;> simp

theorem hSweep_isSome (env : Env) (s : State) (ao : Int) (hs : hSafe env = true) :
    (hSweep env s ao).isSome = true := by
  unfold hSweep
  apply loopM_isSome
  intro y _ st
  apply loopM_isSome
  intro x hx st1
  have hx1 := List.all_eq_true.mp hs x hx
  simp only [Bool.and_eq_true, Bool.or_eq_true, decide_eq_true_eq, Bool.not_eq_true',
    decide_eq_false_iff_not] at hx1
  obtain ⟨hw, hband⟩ := hx1
  unfold hBody
  simp only [hw, if_false]
  by_cases hb : Int.tmod x env.wCell < env.cfg.ArrowSize
  · rcases hband with hn | hk
    · exact absurd hb hn
    · obtain ⟨kx, hkx⟩ := Option.isSome_iff_exists.mp hk
      simp [hb, hkx]
  · simp [hb]

theorem labelBody_eq (env : Env) (s : State) (x y : Int)
    (hx : x ∈ upTo gridSize) (hy : y ∈ upTo gridSize) :
    labelBody env s x y (fontOpacity0 env s) = some (fontOpacity0 env s, cellDraws env s x y) := by
  obtain ⟨kx, hkx⟩ := Option.isSome_iff_exists.mp
    (keyAt_isSome (mem_upTo hx).1 (by have := (mem_upTo hx).2; simpa [gridSize, keys] using this))
  obtain ⟨ky, hky⟩ := Option.isSome_iff_exists.mp
    (keyAt_isSome (mem_upTo hy).1 (by have := (mem_upTo hy).2; simpa [gridSize, keys] using this))
  unfold labelBody cellDraws cellLabel labelOpacity fontOpacity0
  simp only [hkx, hky, Option.getD_some, Option.some.injEq]
  by_cases hc : s.cx = -1 <;> by_cases hk : s.keyCol = kx
  · simp [hc, hk]
  · simp [hc, hk, eq_comm]
  · simp [hc, hk]
  · have hk1 : ¬ kx = s.keyCol := fun e => hk e.symm
    simp [hc, hk, hk1]

theorem labelSweep_eq (env : Env) (s : State) :
    labelSweep env s (fontOpacity0 env s) = some (fontOpacity0 env s, labelDraws env s) := by
  unfold labelSweep labelDraws
  apply loopM_const
  intro x hx
  apply loopM_const
  intro y hy
  exact labelBody_eq env s x y hx hy

theorem makeGrid_of_canBuild (env : Env) (s : State)
    (hb : canBuild env s.gx s.gy = true) :
    ∃ ao1 ops1 ao2 ops2,
      vSweep env s (arrowOpacity0 env s) = some (ao1, ops1) ∧
      hSweep env s ao1 = some (ao2, ops2) ∧
      makeGrid env s = some { s with gridImg := some (overlay env s (ops1 ++ ops2)) } := by
  simp only [canBuild, Bool.and_eq_true, decide_eq_true_eq] at hb
  obtain ⟨⟨⟨hx, hy⟩, hh⟩, hs⟩ := hb
  obtain ⟨⟨ao1, ops1⟩, e1⟩ := Option.isSome_iff_exists.mp
    (vSweep_isSome env s (arrowOpacity0 env s) hh)
  obtain ⟨⟨ao2, ops2⟩, e2⟩ := Option.isSome_iff_exists.mp (hSweep_isSome env s ao1 hs)
  refine ⟨ao1, ops1, ao2, ops2, e1, e2, ?_⟩
  have e3 := labelSweep_eq env s
  unfold arrowOpacity0 at e1
  unfold fontOpacity0 at e3
  have n1 : ¬ (env.w - env.cfg.GridStep * s.gx < 0 ∨ env.h - env.cfg.GridStep * s.gy < 0) := by
    omega
  have n2 : ¬ (env.w - env.cfg.GridStep * s.gx < 1 ∨ env.h - env.cfg.GridStep * s.gy < 1) := by
    omega
  simp only [makeGrid, n1, n2, if_false, e1, e2, e3, overlay]

theorem hSafe_of_cover (env : Env) (hw : 0 < env.wCell) (hc : env.w ≤ 35 * env.wCell) :
    hSafe env = true := by
  unfold hSafe
  rw [List.all_eq_true]
  intro x hx
  obtain ⟨h0, h1⟩ := mem_upTo hx
  have hne : env.wCell ≠ 0 := by omega
  have hq0 : 0 ≤ Int.tdiv x env.wCell := Int.tdiv_nonneg h0 (le_of_lt hw)
  have hq1 : Int.tdiv x env.wCell < 35 := by
    rw [Int.tdiv_eq_ediv h0 (le_of_lt hw)]
    apply Int.ediv_lt_of_lt_mul hw
    omega
  simp [hne, keyAt_isSome hq0 hq1]

theorem canBuild_of_cover (env : Env) (gx gy : Int)
    (hx : env.cfg.GridStep * gx < env.w) (hy : env.cfg.GridStep * gy < env.h)
    (hw : 0 < env.wCell) (hc : env.w ≤ 35 * env.wCell) (hh : env.hCell ≠ 0) :
    canBuild env gx gy = true := by
  simp [canBuild, hx, hy, hh, hSafe_of_cover env hw hc]

theorem makeGrid_none_of_not_canBuild (env : Env) (s : State)
    (hb : canBuild env s.gx s.gy = false) : makeGrid env s = none := by
  have h35 : (0 : Int) ∈ upTo gridSize := zero_mem_upTo (by decide)
  by_cases hrect : env.cfg.GridStep * s.gx < env.w ∧ env.cfg.GridStep * s.gy < env.h
  · by_cases hv : env.h ≤ 0 ∨ env.hCell ≠ 0
    · have hs : hSafe env = false := by
        simpa [canBuild, hrect.1, hrect.2, hv] using hb
      obtain ⟨x, hx, hpx⟩ := List.all_eq_false.mp hs
      have hrow : ∀ y st, loopM (fun x ao1 => hBody env s y x ao1) (upTo env.w) st = none := by
        intro y st
        apply loopM_none _ _ x hx
        intro st1
        unfold hBody
        by_cases hw : env.wCell = 0
        · simp [hw]
        · simp only [hw, decide_not, decide_False, Bool.not_false, Bool.true_and,
            Bool.or_eq_true, Bool.not_eq_true', decide_eq_false_iff_not, not_or, not_not,
            Bool.not_eq_true, Option.not_isSome, Option.isNone_iff_eq_none] at hpx
          simp [hw, hpx.1, hpx.2]
      have hh : ∀ ao, hSweep env s ao = none := by
        intro ao
        unfold hSweep
        exact loopM_none _ _ 0 h35 (fun st => hrow 0 st) ao
      unfold makeGrid
      simp only [hh]
      split
      · rfl
      · split <;> rfl
    · have hv1 : 0 < env.h ∧ env.hCell = 0 := by
        constructor
        · by_contra hc
          exact hv (Or.inl (by omega))
        · by_contra hc
          exact hv (Or.inr hc)
      have hcol : ∀ x st, loopM (fun y ao1 => vBody env s x y ao1) (upTo env.h) st = none := by
        intro x st
        apply loopM_none _ _ 0 (zero_mem_upTo hv1.1)
        intro st1
        simp [vBody, hv1.2]
      have hvs : ∀ ao, vSweep env s ao = none := by
        intro ao
        unfold vSweep
        exact loopM_none _ _ 0 h35 (fun st => hcol 0 st) ao
      unfold makeGrid
      simp only [hvs]
      split <;> rfl
  · unfold makeGrid
    simp only
    split
    · rfl
    · split
      · rfl
      · split
        · rfl
        · rw [if_pos]
          by_contra hc
          apply hrect
          constructor <;> omega

theorem makeGrid_isSome_iff (env : Env) (s : State) :
    (makeGrid env s).isSome = true ↔ canBuild env s.gx s.gy = true := by
  constructor
  · intro h
    by_contra hc
    have hf : canBuild env s.gx s.gy = false := by simpa using hc
    rw [makeGrid_none_of_not_canBuild env s hf] at h
    simp at h
  · intro h
    obtain ⟨_, _, _, _, _, _, hm⟩ := makeGrid_of_canBuild env s h
    simp [hm]

theorem makeGrid_frame (env : Env) (s s1 : State) (h : makeGrid env s = some s1) :
    ∃ img, s1 = { s with gridImg := some img } := by
  unfold makeGrid at h
  simp only at h
  split at h
  · cases h
  · split at h
    · cases h
    · split at h
      · cases h
      · split at h
        · cases h
        · split at h
          · cases h
          · simp only [Option.some.injEq] at h
            exact ⟨_, h.symm⟩

theorem vSweep_sets (env : Env) (s : State) (ao ao1 : Int) (ops1 : List DrawOp)
    (h : vSweep env s ao = some (ao1, ops1)) : ∀ op ∈ ops1, isSet op = true := by
  unfold vSweep at h
  refine loopM_ops_forall (fun op => isSet op = true) _ ?_ _ _ _ _ h
  intro x st st1 o hx
  refine loopM_ops_forall (fun op => isSet op = true) _ ?_ _ _ _ _ hx
  intro y st2 st3 o1 hy op hop
  unfold vBody at hy
  split at hy
  · cases hy
  · split at hy
    · split at hy
      · cases hy
      · simp only [Option.some.injEq, Prod.mk.injEq] at hy
        rw [← hy.2] at hop
        simp at hop
        rcases hop with e | e | e <;> rw [e] <;> rfl
    · simp only [Option.some.injEq, Prod.mk.injEq] at hy
      rw [← hy.2] at hop
      simp at hop
      rcases hop with e | e <;> rw [e] <;> rfl

theorem hSweep_sets (env : Env) (s : State) (ao ao1 : Int) (ops1 : List DrawOp)
    (h : hSweep env s ao = some (ao1, ops1)) : ∀ op ∈ ops1, isSet op = true := by
  unfold hSweep at h
  refine loopM_ops_forall (fun op => isSet op = true) _ ?_ _ _ _ _ h
  intro x st st1 o hx
  refine loopM_ops_forall (fun op => isSet op = true) _ ?_ _ _ _ _ hx
  intro y st2 st3 o1 hy op hop
  unfold hBody at hy
  split at hy
  · cases hy
  · split at hy
    · split at hy
      · cases hy
      · simp only [Option.some.injEq, Prod.mk.injEq] at hy
        rw [← hy.2] at hop
        simp at hop
        rcases hop with e | e | e <;> rw [e] <;> rfl
    · simp only [Option.some.injEq, Prod.mk.injEq] at hy
      rw [← hy.2] at hop
      simp at hop
      rcases hop with e | e <;> rw [e] <;> rfl

/-! ## The key listeners and the steps -/

theorem keyListeners_eq_firstMatch (env : Env) (s1 : State) (inp : Input) :
    keyListeners env s1 inp = firstMatch env s1 inp dispatchOrder := rfl

theorem firstMatch_find (env : Env) (s1 : State) (inp : Input) (l : List Key) :
    firstMatch env s1 inp l =
      match l.find? inp.justReleased with
      | none => some s1
      | some key => keyAction env s1 key := by
  induction l with
  | nil => simp [firstMatch]
  | cons key rest ih =>
    by_cases hk : inp.justReleased key = true
    · simp [firstMatch, List.find?, hk]
    · have hk1 : inp.justReleased key = false := by simpa using hk
      simp [firstMatch, List.find?, hk1, ih]

theorem keyListeners_dispatched (env : Env) (s1 : State) (inp : Input) (key : Key)
    (hk : dispatched inp = some key) :
    keyListeners env s1 inp = keyAction env s1 key := by
  rw [keyListeners_eq_firstMatch, firstMatch_find]
  unfold dispatched at hk
  rw [hk]

theorem decodeKey_label_range (key : Key) (hl : isLabelKey key = true) :
    0 ≤ decodeKey key ∧ decodeKey key ≤ 34 := by
  cases key <;> first | (exact absurd hl (by decide)) | decide

theorem setCoords_idle (env : Env) (s : State) (key : Key) (hcx : s.cx = -1) :
    setCoords env s key = makeGrid env { s with cx := decodeKey key } := by
  simp [setCoords, hcx]

theorem Update_of_listeners (env : Env) (s : State) (inp : Input)
    (hesc : inp.pressed Key.escape = false) :
    Update env s inp =
      (keyListeners env { s with frames := s.frames + 1 } inp).map fun t =>
        (t, if t.exit then some Err.errRegularTermination else none) := by
  simp only [Update, hesc]
  cases keyListeners env { s with frames := s.frames + 1 } inp with
  | none => simp
  | some t => cases ht : t.exit <;> simp [ht]

theorem pan_offset (s : State) (key : Key) :
    (pan s key).gx = s.gx + netX [key] ∧ (pan s key).gy = s.gy + netY [key] ∧
      (pan s key).cx = s.cx ∧ (pan s key).cy = s.cy ∧ (pan s key).keyCol = s.keyCol ∧
      (pan s key).exit = s.exit ∧ (pan s key).out = s.out ∧
      (pan s key).frames = s.frames := by
  cases key <;> simp [pan, netX, netY] <;> omega

theorem netX_cons (key : Key) (ks : List Key) : netX (key :: ks) = netX [key] + netX ks := by
  simp only [netX, List.count_cons, List.count_nil]
  push_cast
  omega

theorem netY_cons (key : Key) (ks : List Key) : netY (key :: ks) = netY [key] + netY ks := by
  simp only [netY, List.count_cons, List.count_nil]
  push_cast
  omega

theorem moveGridAll_offset (env : Env) (ks : List Key) :
    ∀ s s1, moveGridAll env s ks = some s1 →
      s1.gx = s.gx + netX ks ∧ s1.gy = s.gy + netY ks := by
  induction ks with
  | nil =>
    intro s s1 h
    simp only [moveGridAll, Option.some.injEq] at h
    simp [← h, netX, netY]
  | cons key rest ih =>
    intro s s1 h
    simp only [moveGridAll] at h
    cases e : moveGrid env s key with
    | none => simp [e] at h
    | some s2 =>
      simp only [e] at h
      obtain ⟨img, hs2⟩ := makeGrid_frame env (pan s key) s2 e
      have hp := pan_offset s key
      have h2 := ih s2 s1 h
      have hgx : s2.gx = s.gx + netX [key] := by rw [hs2]; exact hp.1
      have hgy : s2.gy = s.gy + netY [key] := by rw [hs2]; exact hp.2.1
      rw [netX_cons, netY_cons]
      omega

theorem moveGridAll_isSome (env : Env) (ks : List Key) :
    ∀ s, (∀ n, n < ks.length →
        canBuild env (s.gx + netX (ks.take (n + 1))) (s.gy + netY (ks.take (n + 1))) = true) →
      (moveGridAll env s ks).isSome = true := by
  induction ks with
  | nil => intro s _; simp [moveGridAll]
  | cons key rest ih =>
    intro s hb
    have hp := pan_offset s key
    have h0 := hb 0 (by simp)
    simp only [zero_add, List.take_succ_cons, List.take_zero] at h0
    rw [← hp.1, ← hp.2.1] at h0
    obtain ⟨_, _, _, _, _, _, hm⟩ := makeGrid_of_canBuild env (pan s key) h0
    simp only [moveGridAll, moveGrid, hm]
    apply ih
    intro n hn
    have h1 := hb (n + 1) (by simpa using hn)
    simp only [List.take_succ_cons] at h1
    rw [netX_cons, netY_cons] at h1
    simp only [hp.1, hp.2.1]
    rw [add_assoc, add_assoc]
    exact h1

/-! ## The label draws -/

theorem keyAt_mem {x : Int} (hx : x ∈ upTo gridSize) :
    ∃ k, keyAt x = some k ∧ k ∈ keys ∧ keys[x.toNat]? = some k := by
  obtain ⟨h0, h1⟩ := mem_upTo hx
  have hlt : x.toNat < keys.length := by
    have : ((keys.length : Nat) : Int) = gridSize := rfl
    omega
  refine ⟨keys[x.toNat], ?_, List.getElem_mem _, List.getElem?_eq_getElem hlt⟩
  simp [keyAt, not_lt.mpr h0, List.getElem?_eq_getElem hlt]

theorem keyAt_inj {x x1 : Int} (hx : x ∈ upTo gridSize) (hx1 : x1 ∈ upTo gridSize)
    (h : keyAt x = keyAt x1) : x = x1 := by
  obtain ⟨k, hk, _, hg⟩ := keyAt_mem hx
  obtain ⟨k1, hk1, _, hg1⟩ := keyAt_mem hx1
  have hkk : k = k1 := by
    rw [hk, hk1] at h
    exact Option.some.inj h
  have hn : keys.Nodup := by decide
  obtain ⟨hl, e⟩ := List.getElem?_eq_some_iff.mp hg
  obtain ⟨hl1, e1⟩ := List.getElem?_eq_some_iff.mp hg1
  have : x.toNat = x1.toNat := by
    apply (List.Nodup.getElem_inj_iff hn).mp
    rw [e, e1, hkk]
  have := (mem_upTo hx).1
  have := (mem_upTo hx1).1
  omega

theorem append_inj_of_keys {a b c d : String} (ha : a ∈ keys) (hc : c ∈ keys)
    (h : a ++ b = c ++ d) : a = c ∧ b = d := by
  have hlen : ∀ k ∈ keys, k.length = 1 := by decide
  have h1 : a.data ++ b.data = c.data ++ d.data := by
    rw [← String.data_append, ← String.data_append, h]
  have h2 : a.data.length = c.data.length := by
    have e1 : a.data.length = 1 := hlen a ha
    have e2 : c.data.length = 1 := hlen c hc
    rw [e1, e2]
  obtain ⟨e1, e2⟩ := List.append_inj h1 h2
  exact ⟨String.ext e1, String.ext e2⟩

theorem cellLabel_inj {x y x1 y1 : Int} (hx : x ∈ upTo gridSize) (hy : y ∈ upTo gridSize)
    (hx1 : x1 ∈ upTo gridSize) (hy1 : y1 ∈ upTo gridSize)
    (h : cellLabel x y = cellLabel x1 y1) : x = x1 ∧ y = y1 := by
  obtain ⟨kx, ekx, mkx, _⟩ := keyAt_mem hx
  obtain ⟨ky, eky, _, _⟩ := keyAt_mem hy
  obtain ⟨kx1, ekx1, mkx1, _⟩ := keyAt_mem hx1
  obtain ⟨ky1, eky1, _, _⟩ := keyAt_mem hy1
  simp only [cellLabel, ekx, eky, ekx1, eky1, Option.getD_some] at h
  obtain ⟨e1, e2⟩ := append_inj_of_keys mkx mkx1 h
  constructor
  · apply keyAt_inj hx hx1
    rw [ekx, ekx1, e1]
  · apply keyAt_inj hy hy1
    rw [eky, eky1, e2]

theorem flatMap_single {α β : Type} [DecidableEq α] (l : List α) (a : α) (f : α → List β)
    (hn : l.Nodup) (ha : a ∈ l) (hf : ∀ b ∈ l, b ≠ a → f b = []) :
    l.flatMap f = f a := by
  induction l with
  | nil => exact absurd ha (List.not_mem_nil a)
  | cons c rest ih =>
    have hnd := List.nodup_cons.mp hn
    by_cases hc : c = a
    · subst hc
      have hrest : rest.flatMap f = [] := by
        rw [List.flatMap_eq_nil_iff]
        intro b hb
        apply hf b (List.mem_cons_of_mem _ hb)
        intro e
        exact hnd.1 (e ▸ hb)
      simp [List.flatMap_cons, hrest]
    · have ha1 : a ∈ rest := by
        rcases List.mem_cons.mp ha with e | e
        · exact absurd e.symm hc
        · exact e
      have h0 : f c = [] := hf c (List.mem_cons_self _ _) hc
      have h1 := ih hnd.2 ha1 (fun b hb => hf b (List.mem_cons_of_mem _ hb))
      simp [List.flatMap_cons, h0, h1]

theorem filter_cellDraws (env : Env) (s : State) (x y x1 y1 : Int) :
    (cellDraws env s x1 y1).filter (drawsLabel (cellLabel x y)) =
      if cellLabel x1 y1 = cellLabel x y then cellDraws env s x1 y1 else [] := by
  by_cases h : cellLabel x1 y1 = cellLabel x y
  · simp [cellDraws, drawsLabel, h]
  · simp [cellDraws, drawsLabel, h]

theorem filter_labelDraws (env : Env) (s : State) (x y : Int)
    (hx : x ∈ upTo gridSize) (hy : y ∈ upTo gridSize) :
    (labelDraws env s).filter (drawsLabel (cellLabel x y)) = cellDraws env s x y := by
  unfold labelDraws
  rw [List.filter_flatMap]
  rw [flatMap_single (upTo gridSize) x _ (upTo_nodup _) hx]
  · rw [List.filter_flatMap]
    rw [flatMap_single (upTo gridSize) y _ (upTo_nodup _) hy]
    · simp [filter_cellDraws]
    · intro y1 hy1 hne
      rw [filter_cellDraws, if_neg]
      intro e
      exact hne (cellLabel_inj hx hy1 hx hy e).2
  · intro x1 hx1 hne
    rw [List.filter_flatMap, List.flatMap_eq_nil_iff]
    intro y1 hy1
    rw [filter_cellDraws, if_neg]
    intro e
    exact hne (cellLabel_inj hx1 hy1 hx hy e).1

theorem cell_nearest (n : Int) (hn : 0 ≤ n) :
    Int.tdiv (n + Int.tmod n (gridSize : Int)) (gridSize : Int) =
      if 35 ≤ 2 * (n % 35) then n / 35 + 1 else n / 35 := by
  have hg : ((gridSize : Nat) : Int) = 35 := rfl
  rw [hg, Int.tmod_eq_emod hn (by decide)]
  have h1 : 0 ≤ n + n % 35 := by omega
  rw [Int.tdiv_eq_ediv h1 (by decide)]
  split <;> omega

theorem cell_le_ceil (n c : Int) (hc : 35 * (c - 1) < n) : c ≤ ⌈(n : ℚ) / 35⌉ := by
  rw [Int.le_ceil_iff, lt_div_iff₀ (by norm_num)]
  have h : ((35 * (c - 1) : Int) : ℚ) < (n : ℚ) := by exact_mod_cast hc
  push_cast at h
  linarith

/-! ## Frames -/

theorem dispatchOrder_cases (key : Key) (hk : key ∈ dispatchOrder) :
    (∃ l, labelOf key = some l ∧ 0 ≤ decodeKey key ∧ decodeKey key ≤ 34 ∧
      keyAt (decodeKey key) = some l) ∨
    (labelOf key = none ∧ isArrowKey key = true) := by
  cases key <;> first
    | (left; exact ⟨_, rfl, by decide, by decide, by decide⟩)
    | (right; exact ⟨rfl, rfl⟩)
    | (exact absurd hk (by decide))

theorem dispatched_mem (inp : Input) (key : Key) (hk : dispatched inp = some key) :
    key ∈ dispatchOrder :=
  List.mem_of_find?_eq_some hk

theorem keyListeners_idle_frame (env : Env) (s1 : State) (inp : Input)
    (hk : dispatched inp = none) : keyListeners env s1 inp = some s1 := by
  rw [keyListeners_eq_firstMatch, firstMatch_find]
  unfold dispatched at hk
  rw [hk]

theorem keyAction_label (env : Env) (s1 : State) (key : Key) (l : String)
    (hl : labelOf key = some l) :
    keyAction env s1 key = setCoords env { s1 with keyCol := l } key := by
  simp [keyAction, hl]

theorem keyAction_arrow (env : Env) (s1 : State) (key : Key) (hl : labelOf key = none) :
    keyAction env s1 key = moveGrid env s1 key := by
  simp [keyAction, hl]

theorem setCoords_chosen (env : Env) (s : State) (key : Key)
    (hcx : s.cx ≠ -1) (hcy : s.cy = -1) :
    setCoords env s key = some { s with
      cy := decodeKey key
      out := s.out ++ [printLine (env.wCell * s.cx - env.cfg.GridStep * s.gx)
                         (env.hCell * decodeKey key - env.cfg.GridStep * s.gy)]
      exit := true } := by
  simp [setCoords, hcx, hcy]

theorem setCoords_done (env : Env) (s : State) (key : Key)
    (hcx : s.cx ≠ -1) (hcy : s.cy ≠ -1) : setCoords env s key = some s := by
  simp [setCoords, hcx, hcy]

theorem keyAction_frameInv (env : Env) (s t : State) (key : Key) (hk : key ∈ dispatchOrder)
    (hi : frameInv s) (ha : keyAction env s key = some t) : frameInv t := by
  obtain ⟨i1, i2, i3, i4, i5, i6, i7⟩ := hi
  rcases dispatchOrder_cases key hk with ⟨l, hl, h0, h1, hkey⟩ | ⟨hl, _⟩
  · rw [keyAction_label env s key l hl] at ha
    by_cases hcx : s.cx = -1
    · rw [setCoords_idle env { s with keyCol := l } key hcx] at ha
      obtain ⟨img, ht⟩ := makeGrid_frame env _ t ha
      subst ht
      have hcy := i1 hcx
      refine ⟨fun h => hcy, i2, i3, i4, Or.inr ⟨h0, h1⟩, i6, fun _ _ => hkey⟩
    · by_cases hcy : s.cy = -1
      · rw [setCoords_chosen env { s with keyCol := l } key hcx hcy] at ha
        simp only [Option.some.injEq] at ha
        subst ha
        have hne : decodeKey key ≠ -1 := by omega
        refine ⟨fun h => absurd h hcx, ?_, fun h => absurd h hne, ?_, i5,
          Or.inr ⟨h0, h1⟩, fun _ h => absurd h hne⟩
        · exact ⟨fun _ => rfl, fun _ => hne⟩
        · intro _
          have := i3 hcy
          simp only [List.length_append, List.length_singleton]
          omega
      · rw [setCoords_done env { s with keyCol := l } key hcx hcy] at ha
        simp only [Option.some.injEq] at ha
        subst ha
        exact ⟨i1, i2, i3, i4, i5, i6, fun _ h => absurd h hcy⟩
  · rw [keyAction_arrow env s key hl] at ha
    obtain ⟨img, ht⟩ := makeGrid_frame env (pan s key) t ha
    have hp := pan_offset s key
    subst ht
    simp only [frameInv, hp.2.2.1, hp.2.2.2.1, hp.2.2.2.2.1, hp.2.2.2.2.2.1,
      hp.2.2.2.2.2.2.1]
    exact ⟨i1, i2, i3, i4, i5, i6, i7⟩

theorem Update_frameInv (env : Env) (s s1 : State) (inp : Input) (e : Option Err)
    (hi : frameInv s) (hu : Update env s inp = some (s1, e)) : frameInv s1 := by
  have hi1 : frameInv { s with frames := s.frames + 1 } := hi
  by_cases hesc : inp.pressed Key.escape = true
  · simp only [Update, hesc, if_true, Option.some.injEq, Prod.mk.injEq] at hu
    rw [← hu.1]
    exact hi1
  · have hesc1 : inp.pressed Key.escape = false := by simpa using hesc
    rw [Update_of_listeners env s inp hesc1] at hu
    cases hl : keyListeners env { s with frames := s.frames + 1 } inp with
    | none => simp [hl] at hu
    | some t =>
      simp only [hl, Option.map_some', Option.some.injEq, Prod.mk.injEq] at hu
      rw [← hu.1]
      cases hd : dispatched inp with
      | none =>
        rw [keyListeners_idle_frame env _ inp hd] at hl
        simp only [Option.some.injEq] at hl
        rw [← hl]
        exact hi1
      | some key =>
        rw [keyListeners_dispatched env _ inp key hd] at hl
        exact keyAction_frameInv env _ t key (dispatched_mem inp key hd) hi1 hl

theorem runFrames_frameInv (env : Env) (inps : List Input) :
    ∀ s t, frameInv s → runFrames env s inps = some t → frameInv t := by
  induction inps with
  | nil =>
    intro s t hi hr
    simp only [runFrames, Option.some.injEq] at hr
    rw [← hr]
    exact hi
  | cons inp rest ih =>
    intro s t hi hr
    simp only [runFrames] at hr
    cases hu : Update env s inp with
    | none => simp [hu] at hr
    | some r =>
      obtain ⟨s1, e⟩ := r
      simp only [hu] at hr
      exact ih s1 t (Update_frameInv env s s1 inp e hi hu) hr

theorem frameInv_of_idle (s : State) (hcx : s.cx = -1) (hcy : s.cy = -1)
    (hexit : s.exit = false) (hout : s.out = []) : frameInv s := by
  refine ⟨fun _ => hcy, ?_, fun _ => by simp [hout], fun h => absurd hcy h, Or.inl hcx,
    Or.inl hcy, fun h => absurd hcx h⟩
  simp [hcy, hexit]

theorem Update_label_idle (env : Env) (s : State) (inp : Input) (key : Key) (l : String)
    (hcx : s.cx = -1) (hexit : s.exit = false) (hesc : inp.pressed Key.escape = false)
    (hk : dispatched inp = some key) (hl : labelOf key = some l)
    (hb : canBuild env s.gx s.gy = true) :
    ∃ sets, Update env s inp = some ({ s with
      frames := s.frames + 1
      keyCol := l
      cx := decodeKey key
      gridImg := some (overlay env
        { s with frames := s.frames + 1, keyCol := l, cx := decodeKey key } sets) },
      none) := by
  obtain ⟨ao1, ops1, ao2, ops2, _, _, hm⟩ := makeGrid_of_canBuild env
    { s with frames := s.frames + 1, keyCol := l, cx := decodeKey key } hb
  refine ⟨ops1 ++ ops2, ?_⟩
  simp only [Update, hesc, keyListeners_dispatched env _ inp key hk, keyAction, hl,
    setCoords, hcx, if_true]
  rw [hm]
  simp [hexit]

theorem Update_label_chosen (env : Env) (s : State) (inp : Input) (key : Key) (l : String)
    (hcx : s.cx ≠ -1) (hcy : s.cy = -1) (hesc : inp.pressed Key.escape = false)
    (hk : dispatched inp = some key) (hl : labelOf key = some l) :
    Update env s inp = some ({ s with
      frames := s.frames + 1
      keyCol := l
      cy := decodeKey key
      out := s.out ++ [printLine (env.wCell * s.cx - env.cfg.GridStep * s.gx)
                         (env.hCell * decodeKey key - env.cfg.GridStep * s.gy)]
      exit := true }, some Err.errRegularTermination) := by
  simp [Update, hesc, keyListeners_dispatched env _ inp key hk, keyAction, hl,
    setCoords, hcx, hcy]

theorem find_split {α : Type} (p : α → Bool) (l : List α) (a : α)
    (h : l.find? p = some a) :
    ∃ pre post, l = pre ++ a :: post ∧ ∀ j ∈ pre, p j = false := by
  induction l with
  | nil => simp at h
  | cons c rest ih =>
    by_cases hc : p c = true
    · simp only [List.find?, hc, Option.some.injEq] at h
      subst h
      exact ⟨[], rest, rfl, fun j hj => absurd hj (List.not_mem_nil j)⟩
    · have hc1 : p c = false := by simpa using hc
      simp only [List.find?, hc1] at h
      obtain ⟨pre, post, e, hp⟩ := ih h
      refine ⟨c :: pre, post, by rw [e]; rfl, ?_⟩
      intro j hj
      rcases List.mem_cons.mp hj with e1 | e1
      · rw [e1]; exact hc1
      · exact hp j e1

theorem dispatched_onlyKey (key : Key) (hk : key ∈ dispatchOrder) :
    dispatched (onlyKey key) = some key := by
  cases key <;> first | rfl | (exact absurd hk (by decide))

theorem Update_eq_of_dispatched (env : Env) (s : State) (inp inp1 : Input)
    (h1 : inp.pressed Key.escape = false) (h2 : inp1.pressed Key.escape = false)
    (hd : dispatched inp = dispatched inp1) : Update env s inp = Update env s inp1 := by
  rw [Update_of_listeners env s inp h1, Update_of_listeners env s inp1 h2,
    keyListeners_eq_firstMatch, firstMatch_find, keyListeners_eq_firstMatch, firstMatch_find]
  unfold dispatched at hd
  rw [hd]

theorem dispatched_label_of_released (inp : Input) (k1 : Key)
    (hl : isLabelKey k1 = true) (hr : inp.justReleased k1 = true) :
    ∃ key l, dispatched inp = some key ∧ labelOf key = some l := by
  have hsplit : dispatchOrder =
      dispatchOrder.filter isLabelKey ++ dispatchOrder.filter isArrowKey := by decide
  have hmem : k1 ∈ dispatchOrder.filter isLabelKey := by
    cases k1 <;> first | (exact absurd hl (by decide)) | decide
  have hsome : ((dispatchOrder.filter isLabelKey).find? inp.justReleased).isSome = true :=
    List.find?_isSome.mpr ⟨k1, hmem, hr⟩
  obtain ⟨key, hkey⟩ := Option.isSome_iff_exists.mp hsome
  have hlab : isLabelKey key = true :=
    (List.mem_filter.mp (List.mem_of_find?_eq_some hkey)).2
  obtain ⟨l, hl1⟩ := Option.isSome_iff_exists.mp hlab
  refine ⟨key, l, ?_, hl1⟩
  unfold dispatched
  rw [hsplit, List.find?_append, hkey]
  rfl

theorem runFrames_cons (env : Env) (s s1 : State) (inp : Input) (rest : List Input)
    (e : Option Err) (h : Update env s inp = some (s1, e)) :
    runFrames env s (inp :: rest) = runFrames env s1 rest := by
  simp only [runFrames, h]

theorem runFrames_example :
    ∃ sets, runFrames exEnv State.initial [exReleaseD, exReleaseCF] =
      some { exFirstPick with
        frames := 2
        keyCol := "c"
        cy := 2
        out := ["90 40"]
        exit := true
        gridImg := some (overlay exEnv exFirstPick sets) } := by
  obtain ⟨sets, h1⟩ := Update_label_idle exEnv State.initial exReleaseD Key.d "d"
    rfl rfl rfl rfl rfl
    (canBuild_of_cover exEnv 0 0 (by decide) (by decide) (by decide) (by decide) (by decide))
  refine ⟨sets, ?_⟩
  have h2 := Update_label_chosen exEnv
    { State.initial with
      frames := State.initial.frames + 1
      keyCol := "d"
      cx := decodeKey Key.d
      gridImg := some (overlay exEnv
        { State.initial with
          frames := State.initial.frames + 1, keyCol := "d", cx := decodeKey Key.d } sets) }
    exReleaseCF Key.c "c" (by show decodeKey Key.d ≠ -1; decide) rfl rfl rfl rfl
  rw [runFrames_cons _ _ _ _ _ _ h1, runFrames_cons _ _ _ _ _ _ h2]
  rfl

theorem runFrames_example_pick :
    ∃ sets, runFrames exEnv State.initial [exReleaseD] =
      some { exFirstPick with gridImg := some (overlay exEnv exFirstPick sets) } := by
  obtain ⟨sets, h1⟩ := Update_label_idle exEnv State.initial exReleaseD Key.d "d"
    rfl rfl rfl rfl rfl
    (canBuild_of_cover exEnv 0 0 (by decide) (by decide) (by decide) (by decide) (by decide))
  refine ⟨sets, ?_⟩
  rw [runFrames_cons _ _ _ _ _ _ h1]
  rfl

/-! ## What the rebuild depends on -/

theorem vSweep_congr (env : Env) (s t : State) (ao : Int)
    (hk : s.keyCol = t.keyCol) (hc : s.cx = t.cx) : vSweep env s ao = vSweep env t ao := by
  have hb : ∀ x y ao1, vBody env s x y ao1 = vBody env t x y ao1 := by
    intro x y ao1
    simp only [vBody, hk, hc]
  simp only [vSweep, hb]

theorem hSweep_congr (env : Env) (s t : State) (ao : Int)
    (hk : s.keyCol = t.keyCol) (hc : s.cx = t.cx) : hSweep env s ao = hSweep env t ao := by
  have hb : ∀ y x ao1, hBody env s y x ao1 = hBody env t y x ao1 := by
    intro y x ao1
    simp only [hBody, hk, hc]
  simp only [hSweep, hb]

theorem labelSweep_congr (env : Env) (s t : State) (fo : Int)
    (hgx : s.gx = t.gx) (hgy : s.gy = t.gy) (hk : s.keyCol = t.keyCol) (hc : s.cx = t.cx) :
    labelSweep env s fo = labelSweep env t fo := by
  have hb : ∀ x y fo1, labelBody env s x y fo1 = labelBody env t x y fo1 := by
    intro x y fo1
    simp only [labelBody, hgx, hgy, hk, hc]
  simp only [labelSweep, hb]

theorem makeGrid_congr (env : Env) (s t : State)
    (hgx : s.gx = t.gx) (hgy : s.gy = t.gy) (hk : s.keyCol = t.keyCol) (hc : s.cx = t.cx) :
    (makeGrid env s).map State.gridImg = (makeGrid env t).map State.gridImg := by
  simp only [makeGrid, hgx, hgy, hc, vSweep_congr env s t _ hk hc]
  split
  · rfl
  · cases hv : vSweep env t (if t.cx ≠ -1 then 0 else env.cfg.ArrowOpacity) with
    | none => rfl
    | some r1 =>
      obtain ⟨ao1, ops1⟩ := r1
      simp only [hSweep_congr env s t _ hk hc]
      cases hh : hSweep env t ao1 with
      | none => rfl
      | some r2 =>
        obtain ⟨ao2, ops2⟩ := r2
        simp only
        split
        · rfl
        · simp only [labelSweep_congr env s t _ hgx hgy hk hc]
          cases hl : labelSweep env t
              (if t.cx ≠ -1 then Int.tdiv env.cfg.FontOpacity 4 else env.cfg.FontOpacity) with
          | none => rfl
          | some r3 => rfl

theorem makeGrid_again (env : Env) (s s1 : State) (h : makeGrid env s = some s1) :
    makeGrid env s1 = some s1 := by
  obtain ⟨img, hs1⟩ := makeGrid_frame env s s1 h
  have hc := makeGrid_congr env s1 s (by rw [hs1]) (by rw [hs1]) (by rw [hs1]) (by rw [hs1])
  rw [h] at hc
  cases h2 : makeGrid env s1 with
  | none => simp [h2] at hc
  | some s2 =>
    obtain ⟨img2, hs2⟩ := makeGrid_frame env s1 s2 h2
    simp only [h2, Option.map_some', Option.some.injEq] at hc
    rw [hs2] at hc
    simp only at hc
    rw [hs2, hc, hs1]

theorem makeGrid_label_filter (env : Env) (s : State) (hb : canBuild env s.gx s.gy = true) :
    ∃ sets, makeGrid env s = some { s with gridImg := some (overlay env s sets) } ∧
      (∀ op ∈ sets, isSet op = true) ∧
      ∀ x y : Int, x ∈ upTo gridSize → y ∈ upTo gridSize →
        (overlay env s sets).ops.filter (drawsLabel (cellLabel x y)) = cellDraws env s x y := by
  obtain ⟨ao1, ops1, ao2, ops2, e1, e2, hm⟩ := makeGrid_of_canBuild env s hb
  have hsets : ∀ op ∈ ops1 ++ ops2, isSet op = true := by
    intro op hop
    rcases List.mem_append.mp hop with h | h
    · exact vSweep_sets env s _ _ _ e1 op h
    · exact hSweep_sets env s _ _ _ e2 op h
  refine ⟨ops1 ++ ops2, hm, hsets, ?_⟩
  intro x y hx hy
  have hnil : (ops1 ++ ops2).filter (drawsLabel (cellLabel x y)) = [] := by
    rw [List.filter_eq_nil_iff]
    intro op hop
    have := hsets op hop
    cases op <;> simp_all [isSet, drawsLabel]
  simp only [overlay, List.filter_append, hnil, List.nil_append,
    filter_labelDraws env s x y hx hy]

theorem netX_replicate_left (n : Nat) : netX (List.replicate n Key.arrowLeft) = n := by
  simp [netX, List.count_replicate]

theorem netY_replicate_left (n : Nat) : netY (List.replicate n Key.arrowLeft) = 0 := by
  simp [netY, List.count_replicate]

/-! ## The pixels of the finished grid image -/

theorem loopM_inv {α σ : Type} (P : σ → Prop) (Q : DrawOp → Prop)
    (body : α → σ → Option (σ × List DrawOp)) (l : List α)
    (hb : ∀ a ∈ l, ∀ st st1 o, P st → body a st = some (st1, o) → P st1 ∧ ∀ op ∈ o, Q op) :
    ∀ st st1 o, P st → loopM body l st = some (st1, o) → P st1 ∧ ∀ op ∈ o, Q op := by
  induction l with
  | nil =>
    intro st st1 o hP h
    simp only [loopM, Option.some.injEq, Prod.mk.injEq] at h
    refine ⟨h.1 ▸ hP, ?_⟩
    intro op hop
    rw [← h.2] at hop
    exact absurd hop (List.not_mem_nil op)
  | cons a rest ih =>
    intro st st1 o hP h
    obtain ⟨sa, o1, o2, h1, h2, ho⟩ := loopM_cons_some body a rest st st1 o h
    obtain ⟨hPa, hQ1⟩ := hb a (List.mem_cons_self a rest) st sa o1 hP h1
    obtain ⟨hP1, hQ2⟩ := ih (fun b hb1 => hb b (List.mem_cons_of_mem a hb1)) sa st1 o2 hPa h2
    refine ⟨hP1, ?_⟩
    intro op hop
    rw [ho] at hop
    rcases List.mem_append.mp hop with hm | hm
    · exact hQ1 op hm
    · exact hQ2 op hm

theorem foldl_stored (px py : Int) (l : List DrawOp) :
    ∀ stored : Option Colour,
      l.foldl (fun st op => (hitBy op px py).or st) stored =
        (l.foldl (fun st op => (hitBy op px py).or st) none).or stored := by
  induction l with
  | nil => intro stored; simp
  | cons op rest ih =>
    intro stored
    simp only [List.foldl_cons]
    rw [ih ((hitBy op px py).or stored), ih ((hitBy op px py).or none), Option.or_none,
      Option.or_assoc]

theorem lastSet_nil (px py : Int) : lastSet [] px py = none := rfl

theorem lastSet_cons (op : DrawOp) (rest : List DrawOp) (px py : Int) :
    lastSet (op :: rest) px py = (lastSet rest px py).or (hitBy op px py) := by
  unfold lastSet
  simp only [List.foldl_cons]
  rw [foldl_stored px py rest ((hitBy op px py).or none), Option.or_none]

theorem lastSet_append (a b : List DrawOp) (px py : Int) :
    lastSet (a ++ b) px py = (lastSet b px py).or (lastSet a px py) := by
  induction a with
  | nil => simp [lastSet_nil]
  | cons op rest ih => simp [lastSet_cons, ih, Option.or_assoc]

theorem lastSet_mem (l : List DrawOp) (px py : Int) (c : Colour)
    (h : lastSet l px py = some c) : DrawOp.set px py c ∈ l := by
  induction l with
  | nil => simp [lastSet_nil] at h
  | cons op rest ih =>
    rw [lastSet_cons] at h
    cases hr : lastSet rest px py with
    | some c1 =>
      rw [hr, Option.or_some] at h
      rw [h] at hr
      exact List.mem_cons_of_mem _ (ih hr)
    | none =>
      rw [hr, Option.none_or] at h
      cases op with
      | set x y c1 =>
        simp only [hitBy] at h
        split at h
        · rename_i hxy
          simp only [Option.some.injEq] at h
          rw [hxy.1, hxy.2, h]
          exact List.mem_cons_self _ _
        · cases h
      | text t x y c1 => simp [hitBy] at h

theorem lastSet_isSome (l : List DrawOp) (px py : Int) (c : Colour)
    (h : DrawOp.set px py c ∈ l) : (lastSet l px py).isSome = true := by
  induction l with
  | nil => exact absurd h (List.not_mem_nil _)
  | cons op rest ih =>
    rw [lastSet_cons]
    rcases List.mem_cons.mp h with e | e
    · cases hr : lastSet rest px py with
      | some c1 => simp
      | none => simp [← e, hitBy]
    · obtain ⟨c1, hc1⟩ := Option.isSome_iff_exists.mp (ih e)
      simp [hc1]

theorem labelDraws_not_set (env : Env) (s : State) (px py : Int) (c : Colour) :
    DrawOp.set px py c ∉ labelDraws env s := by
  intro h
  simp only [labelDraws, List.mem_flatMap] at h
  obtain ⟨x, _, y, _, hm⟩ := h
  simp [cellDraws] at hm

theorem strictOp_loose (env : Env) (s : State) (op : DrawOp) (h : strictOp env s op) :
    looseOp env s op := by
  obtain ⟨px, py, c, e, hc⟩ := h
  exact ⟨px, py, c, e, Or.inl hc⟩

theorem settled_start (env : Env) (s : State) (ao : Int) (h : settled env s ao) :
    startOrSettled env s ao := Or.inr h

theorem arrow_after (env : Env) (s : State) (kx : String) (st : Int)
    (hs : st = carriedOpacity env s) :
    (if s.keyCol = kx then env.cfg.ArrowOpacity else st) = arrowRule env s kx := by
  rw [hs]
  unfold carriedOpacity arrowRule
  by_cases hc : s.cx = -1 <;> by_cases hk : s.keyCol = kx
  · simp [hc, hk]
  · simp [hc, hk]
  · simp [hc, hk]
  · have hk1 : ¬ kx = s.keyCol := fun e => hk e.symm
    simp [hc, hk, hk1]

theorem carried_after (env : Env) (s : State) (kx : String) (st : Int)
    (hs : st = carriedOpacity env s) :
    (if s.cx ≠ -1 then Int.tdiv env.cfg.ArrowOpacity 4
      else if s.keyCol = kx then env.cfg.ArrowOpacity else st) = carriedOpacity env s := by
  rw [hs]
  unfold carriedOpacity
  by_cases hc : s.cx = -1 <;> by_cases hk : s.keyCol = kx <;> simp [hc, hk]

theorem carried_first (env : Env) (s : State) (kx : String) (st : Int)
    (hs : startOrSettled env s st) (ha : 0 < env.cfg.ArrowSize) :
    (if s.cx ≠ -1 then Int.tdiv env.cfg.ArrowOpacity 4
      else if s.keyCol = kx then env.cfg.ArrowOpacity else st) = carriedOpacity env s := by
  by_cases hc : s.cx = -1
  · have hst : st = carriedOpacity env s := by
      rcases hs with h | h | h
      · rw [h]
        simp [arrowOpacity0, carriedOpacity, hc]
      · exact h
      · omega
    exact carried_after env s kx st hst
  · simp [carriedOpacity, hc]

theorem vBody_strict (env : Env) (s : State) (x y st st1 : Int) (o : List DrawOp)
    (hy : 0 ≤ y) (hP : settled env s st) (h : vBody env s x y st = some (st1, o)) :
    settled env s st1 ∧ ∀ op ∈ o, strictOp env s op := by
  unfold vBody at h
  simp only at h
  split at h
  · cases h
  · split at h
    · rename_i hband
      have hnn := Int.tmod_nonneg env.hCell hy
      have hst : st = carriedOpacity env s := by
        rcases hP with e | e
        · exact e
        · omega
      split at h
      · cases h
      · rename_i kx hkx
        simp only [Option.some.injEq, Prod.mk.injEq] at h
        obtain ⟨h1, h2⟩ := h
        rw [arrow_after env s kx st hst] at h2
        rw [carried_after env s kx st hst] at h1
        refine ⟨Or.inl h1.symm, ?_⟩
        intro op hop
        rw [← h2] at hop
        simp only [List.cons_append, List.nil_append, List.mem_cons, List.mem_singleton,
          List.not_mem_nil, or_false] at hop
        rcases hop with e | e | e
        · exact ⟨_, _, _, e, Or.inl rfl⟩
        · exact ⟨_, _, _, e, Or.inr (Or.inl rfl)⟩
        · exact ⟨_, _, _, e, Or.inr (Or.inr ⟨kx, Or.inl ⟨x, hkx, rfl⟩, rfl⟩)⟩
    · simp only [Option.some.injEq, Prod.mk.injEq] at h
      obtain ⟨h1, h2⟩ := h
      refine ⟨h1 ▸ hP, ?_⟩
      intro op hop
      rw [← h2] at hop
      simp only [List.mem_cons, List.mem_singleton, List.not_mem_nil, or_false] at hop
      rcases hop with e | e
      · exact ⟨_, _, _, e, Or.inl rfl⟩
      · exact ⟨_, _, _, e, Or.inr (Or.inl rfl)⟩

theorem vBody_first (env : Env) (s : State) (st st1 : Int) (o : List DrawOp)
    (hP : startOrSettled env s st) (h : vBody env s 0 0 st = some (st1, o)) :
    settled env s st1 ∧ ∀ op ∈ o, looseOp env s op := by
  unfold vBody at h
  simp only [Int.zero_tmod] at h
  split at h
  · cases h
  · split at h
    · rename_i hband
      split at h
      · cases h
      · rename_i kx hkx
        simp only [Option.some.injEq, Prod.mk.injEq] at h
        obtain ⟨h1, h2⟩ := h
        rw [carried_first env s kx st hP hband] at h1
        refine ⟨Or.inl h1.symm, ?_⟩
        intro op hop
        rw [← h2] at hop
        simp only [List.cons_append, List.nil_append, List.mem_cons, List.mem_singleton,
          List.not_mem_nil, or_false] at hop
        rcases hop with e | e | e
        · exact ⟨_, _, _, e, Or.inl (Or.inl rfl)⟩
        · exact ⟨_, _, _, e, Or.inl (Or.inr (Or.inl rfl))⟩
        · exact ⟨_, _, _, e, Or.inr ⟨by simp, rfl⟩⟩
    · rename_i hband
      simp only [Option.some.injEq, Prod.mk.injEq] at h
      obtain ⟨_, h2⟩ := h
      refine ⟨Or.inr (by omega), ?_⟩
      intro op hop
      rw [← h2] at hop
      simp only [List.mem_cons, List.mem_singleton, List.not_mem_nil, or_false] at hop
      rcases hop with e | e
      · exact ⟨_, _, _, e, Or.inl (Or.inl rfl)⟩
      · exact ⟨_, _, _, e, Or.inl (Or.inr (Or.inl rfl))⟩

theorem hBody_strict (env : Env) (s : State) (y x st st1 : Int) (o : List DrawOp)
    (hx : 0 ≤ x) (hP : settled env s st) (h : hBody env s y x st = some (st1, o)) :
    settled env s st1 ∧ ∀ op ∈ o, strictOp env s op := by
  unfold hBody at h
  simp only at h
  split at h
  · cases h
  · split at h
    · rename_i hband
      have hnn := Int.tmod_nonneg env.wCell hx
      have hst : st = carriedOpacity env s := by
        rcases hP with e | e
        · exact e
        · omega
      split at h
      · cases h
      · rename_i kx hkx
        simp only [Option.some.injEq, Prod.mk.injEq] at h
        obtain ⟨h1, h2⟩ := h
        rw [arrow_after env s kx st hst] at h2
        rw [carried_after env s kx st hst] at h1
        refine ⟨Or.inl h1.symm, ?_⟩
        intro op hop
        rw [← h2] at hop
        simp only [List.cons_append, List.nil_append, List.mem_cons, List.mem_singleton,
          List.not_mem_nil, or_false] at hop
        rcases hop with e | e | e
        · exact ⟨_, _, _, e, Or.inl rfl⟩
        · exact ⟨_, _, _, e, Or.inr (Or.inl rfl)⟩
        · exact ⟨_, _, _, e, Or.inr (Or.inr ⟨kx, Or.inr hkx, rfl⟩)⟩
    · simp only [Option.some.injEq, Prod.mk.injEq] at h
      obtain ⟨h1, h2⟩ := h
      refine ⟨h1 ▸ hP, ?_⟩
      intro op hop
      rw [← h2] at hop
      simp only [List.mem_cons, List.mem_singleton, List.not_mem_nil, or_false] at hop
      rcases hop with e | e
      · exact ⟨_, _, _, e, Or.inl rfl⟩
      · exact ⟨_, _, _, e, Or.inr (Or.inl rfl)⟩

theorem hBody_first (env : Env) (s : State) (st st1 : Int) (o : List DrawOp)
    (hP : startOrSettled env s st) (h : hBody env s 0 0 st = some (st1, o)) :
    settled env s st1 ∧ ∀ op ∈ o, looseOp env s op := by
  unfold hBody at h
  simp only [Int.zero_tmod] at h
  split at h
  · cases h
  · split at h
    · rename_i hband
      split at h
      · cases h
      · rename_i kx hkx
        simp only [Option.some.injEq, Prod.mk.injEq] at h
        obtain ⟨h1, h2⟩ := h
        rw [carried_first env s kx st hP hband] at h1
        refine ⟨Or.inl h1.symm, ?_⟩
        intro op hop
        rw [← h2] at hop
        simp only [List.cons_append, List.nil_append, List.mem_cons, List.mem_singleton,
          List.not_mem_nil, or_false] at hop
        rcases hop with e | e | e
        · exact ⟨_, _, _, e, Or.inl (Or.inl rfl)⟩
        · exact ⟨_, _, _, e, Or.inl (Or.inr (Or.inl rfl))⟩
        · exact ⟨_, _, _, e, Or.inr ⟨rfl, by simp⟩⟩
    · rename_i hband
      simp only [Option.some.injEq, Prod.mk.injEq] at h
      obtain ⟨_, h2⟩ := h
      refine ⟨Or.inr (by omega), ?_⟩
      intro op hop
      rw [← h2] at hop
      simp only [List.mem_cons, List.mem_singleton, List.not_mem_nil, or_false] at hop
      rcases hop with e | e
      · exact ⟨_, _, _, e, Or.inl (Or.inl rfl)⟩
      · exact ⟨_, _, _, e, Or.inl (Or.inr (Or.inl rfl))⟩

theorem sweep_inv (P0 P : Int → Prop) (Qs Qw : DrawOp → Prop)
    (body2 : Int → Int → Int → Option (Int × List DrawOp)) (n : Int)
    (hPP0 : ∀ st, P st → P0 st) (hQ : ∀ op, Qs op → Qw op)
    (H1 : ∀ a b st st1 o, 0 ≤ b → P st → body2 a b st = some (st1, o) →
      P st1 ∧ ∀ op ∈ o, Qs op)
    (H2 : ∀ st st1 o, P0 st → body2 0 0 st = some (st1, o) → P st1 ∧ ∀ op ∈ o, Qw op)
    (st st1 : Int) (o : List DrawOp) (h0 : P0 st)
    (h : loopM (fun a st2 => loopM (fun b st3 => body2 a b st3) (upTo n) st2)
      (upTo gridSize) st = some (st1, o)) :
    (∀ op ∈ o, Qw op) ∧ (0 < n → P st1) ∧ (P st → P st1 ∧ ∀ op ∈ o, Qs op) ∧ P0 st1 := by
  have inner : ∀ (l : List Int), (∀ b ∈ l, 0 ≤ b) → ∀ a su su1 ou, P su →
      loopM (fun b st3 => body2 a b st3) l su = some (su1, ou) →
      P su1 ∧ ∀ op ∈ ou, Qs op := by
    intro l hl a su su1 ou hP hloop
    exact loopM_inv P Qs _ l (fun b hb su2 su3 ou2 hP2 hbody =>
      H1 a b su2 su3 ou2 (hl b hb) hP2 hbody) su su1 ou hP hloop
  have hnn : ∀ b ∈ upTo n, 0 ≤ b := fun b hb => (mem_upTo hb).1
  have outer : ∀ (l : List Int) su su1 ou, P su →
      loopM (fun a st2 => loopM (fun b st3 => body2 a b st3) (upTo n) st2) l su =
        some (su1, ou) → P su1 ∧ ∀ op ∈ ou, Qs op := by
    intro l su su1 ou hP hloop
    exact loopM_inv P Qs _ l (fun a _ su2 su3 ou2 hP2 hbody =>
      inner (upTo n) hnn a su2 su3 ou2 hP2 hbody) su su1 ou hP hloop
  have strictPart : P st → P st1 ∧ ∀ op ∈ o, Qs op := fun hP => outer _ st st1 o hP h
  by_cases hn : 0 < n
  · obtain ⟨t, ht⟩ := upTo_pos (show (0 : Int) < (gridSize : Int) by decide)
    obtain ⟨tn, htn⟩ := upTo_pos hn
    rw [ht] at h
    obtain ⟨sa, o1, o2, hb1, hrest, ho⟩ := loopM_cons_some _ _ _ _ _ _ h
    simp only [htn] at hb1
    obtain ⟨sb, oa, ob, hb2, hrest2, ho1⟩ := loopM_cons_some _ _ _ _ _ _ hb1
    obtain ⟨hPb, hQa⟩ := H2 st sb oa h0 hb2
    have htn0 : ∀ b ∈ tn, 0 ≤ b := by
      intro b hb
      apply hnn
      rw [htn]
      exact List.mem_cons_of_mem _ hb
    obtain ⟨hPa, hQb⟩ := inner tn htn0 0 sb sa ob hPb hrest2
    obtain ⟨hP1, hQ2⟩ := outer t sa st1 o2 hPa hrest
    refine ⟨?_, fun _ => hP1, strictPart, hPP0 st1 hP1⟩
    intro op hop
    rw [ho, ho1] at hop
    rcases List.mem_append.mp hop with hm | hm
    · rcases List.mem_append.mp hm with hm1 | hm1
      · exact hQa op hm1
      · exact hQ op (hQb op hm1)
    · exact hQ op (hQ2 op hm)
  · have hempty : upTo n = [] := by
      have : n.toNat = 0 := by omega
      simp [upTo, this]
    rw [hempty] at h
    have hc := loopM_const (fun a st2 => loopM (fun b st3 => body2 a b st3) [] st2) st
      (fun _ => []) (upTo gridSize) (fun a _ => by simp [loopM])
    rw [hc] at h
    simp only [Option.some.injEq, Prod.mk.injEq] at h
    obtain ⟨e1, e2⟩ := h
    have ho : o = [] := by
      rw [← e2]
      simp
    refine ⟨?_, fun hpos => absurd hpos hn, strictPart, e1 ▸ h0⟩
    intro op hop
    rw [ho] at hop
    exact absurd hop (List.not_mem_nil op)

theorem vSweep_conform (env : Env) (s : State) (st st1 : Int) (o : List DrawOp)
    (h0 : startOrSettled env s st) (h : vSweep env s st = some (st1, o)) :
    (∀ op ∈ o, looseOp env s op) ∧ (0 < env.h → settled env s st1) ∧
      (settled env s st → settled env s st1 ∧ ∀ op ∈ o, strictOp env s op) ∧
      startOrSettled env s st1 :=
  sweep_inv (startOrSettled env s) (settled env s) (strictOp env s) (looseOp env s)
    (vBody env s) env.h (settled_start env s) (strictOp_loose env s)
    (fun a b su su1 ou hb hP hbody => vBody_strict env s a b su su1 ou hb hP hbody)
    (fun su su1 ou hP hbody => vBody_first env s su su1 ou hP hbody) st st1 o h0 h

theorem hSweep_conform (env : Env) (s : State) (st st1 : Int) (o : List DrawOp)
    (h0 : startOrSettled env s st) (h : hSweep env s st = some (st1, o)) :
    (∀ op ∈ o, looseOp env s op) ∧ (0 < env.w → settled env s st1) ∧
      (settled env s st → settled env s st1 ∧ ∀ op ∈ o, strictOp env s op) ∧
      startOrSettled env s st1 :=
  sweep_inv (startOrSettled env s) (settled env s) (strictOp env s) (looseOp env s)
    (hBody env s) env.w (settled_start env s) (strictOp_loose env s)
    (fun a b su su1 ou hb hP hbody => hBody_strict env s a b su su1 ou hb hP hbody)
    (fun su su1 ou hP hbody => hBody_first env s su su1 ou hP hbody) st st1 o h0 h

theorem hSweep_head (env : Env) (s : State) (ao ao1 : Int) (ops2 : List DrawOp)
    (hw : 0 < env.w) (h : hSweep env s ao = some (ao1, ops2)) :
    DrawOp.set 0 0 (getColour env.cfg.LineDropColour env.cfg.LineOpacity) ∈ ops2 := by
  unfold hSweep at h
  obtain ⟨t, ht⟩ := upTo_pos (show (0 : Int) < (gridSize : Int) by decide)
  obtain ⟨t1, ht1⟩ := upTo_pos hw
  rw [ht] at h
  obtain ⟨st1, o1, o2, hb1, _, ho⟩ := loopM_cons_some _ _ _ _ _ _ h
  simp only [ht1] at hb1
  obtain ⟨st2, oa, ob, hb2, _, ho1⟩ := loopM_cons_some _ _ _ _ _ _ hb1
  have hmem : DrawOp.set 0 0 (getColour env.cfg.LineDropColour env.cfg.LineOpacity) ∈ oa := by
    unfold hBody at hb2
    simp only [Int.zero_tmod, zero_mul] at hb2
    split at hb2
    · cases hb2
    · split at hb2
      · split at hb2
        · cases hb2
        · simp only [Option.some.injEq, Prod.mk.injEq] at hb2
          rw [← hb2.2]
          simp
      · simp only [Option.some.injEq, Prod.mk.injEq] at hb2
        rw [← hb2.2]
        simp
  rw [ho, ho1]
  exact List.mem_append_left _ (List.mem_append_left _ hmem)

theorem makeGrid_pixels_conform (env : Env) (s : State)
    (hb : canBuild env s.gx s.gy = true) :
    ∃ sets, makeGrid env s = some { s with gridImg := some (overlay env s sets) } ∧
      (∀ px py c, gridPixel (overlay env s sets) px py = some c → conforms env s px c) ∧
      (env.cfg.GridStep * s.gx ≤ 0 → env.cfg.GridStep * s.gy ≤ 0 → 0 < env.w →
        0 < env.h → (gridPixel (overlay env s sets) 0 0).isSome = true) := by
  obtain ⟨ao1, ops1, ao2, ops2, e1, e2, hm⟩ := makeGrid_of_canBuild env s hb
  have hv := vSweep_conform env s _ ao1 ops1 (Or.inl rfl) e1
  have hh := hSweep_conform env s ao1 ao2 ops2 hv.2.2.2 e2
  have hlast : ∀ px py, lastSet (ops1 ++ ops2 ++ labelDraws env s) px py =
      (lastSet ops2 px py).or (lastSet ops1 px py) := by
    intro px py
    rw [lastSet_append, lastSet_append]
    cases hl : lastSet (labelDraws env s) px py with
    | none => rw [Option.none_or]
    | some c => exact absurd (lastSet_mem _ _ _ _ hl) (labelDraws_not_set env s px py c)
  refine ⟨ops1 ++ ops2, hm, ?_, ?_⟩
  · intro px py c hpix
    unfold gridPixel at hpix
    split at hpix
    · rename_i hrect
      simp only [overlay] at hpix hrect
      rw [hlast] at hpix
      by_cases h00 : px = 0 ∧ py = 0
      · obtain ⟨hpx, hpy⟩ := h00
        subst hpx
        subst hpy
        have hw : 0 < env.w := hrect.2.1
        have hhp : 0 < env.h := hrect.2.2.2
        have hstrict := (hh.2.2.1 (hv.2.1 hhp)).2
        obtain ⟨c1, hc1⟩ := Option.isSome_iff_exists.mp
          (lastSet_isSome ops2 0 0 _ (hSweep_head env s ao1 ao2 ops2 hw e2))
        rw [hc1, Option.or_some] at hpix
        rw [hpix] at hc1
        obtain ⟨px1, py1, c2, e, hc⟩ := hstrict _ (lastSet_mem ops2 0 0 c hc1)
        simp only [DrawOp.set.injEq] at e
        rw [e.1, e.2.2]
        exact hc
      · have hmem : DrawOp.set px py c ∈ ops1 ++ ops2 := by
          cases h2 : lastSet ops2 px py with
          | some c1 =>
            rw [h2, Option.or_some] at hpix
            rw [hpix] at h2
            exact List.mem_append_right _ (lastSet_mem _ _ _ _ h2)
          | none =>
            rw [h2, Option.none_or] at hpix
            exact List.mem_append_left _ (lastSet_mem _ _ _ _ hpix)
        have hl : looseOp env s (DrawOp.set px py c) := by
          rcases List.mem_append.mp hmem with hm1 | hm1
          · exact hv.1 _ hm1
          · exact hh.1 _ hm1
        obtain ⟨px1, py1, c2, e, hc⟩ := hl
        simp only [DrawOp.set.injEq] at e
        rw [← e.1, ← e.2.1, ← e.2.2] at hc
        rcases hc with hc | hc
        · exact hc
        · exact absurd hc h00
    · cases hpix
  · intro hx hy hw hhp
    unfold gridPixel
    simp only [overlay]
    rw [if_pos ⟨hx, hw, hy, hhp⟩, hlast]
    obtain ⟨c1, hc1⟩ := Option.isSome_iff_exists.mp
      (lastSet_isSome ops2 0 0 _ (hSweep_head env s ao1 ao2 ops2 hw e2))
    rw [hc1, Option.or_some]
    rfl

/-! ## Claims -/

/-- C1: in a state with a column chosen and no row chosen (`cx ≠ -1`,
`cy = -1`), `setCoords` with a key whose decoded index is `i = decodeKey key`
sets `cy = i`, sets the exit flag and appends to standard output exactly the
one line `wCell*cx - GridStep*gx`, `hCell*i - GridStep*gy`, computed with the
pan offset of that state; nothing else changes. -/
theorem setCoords_row_emits (env : Env) (s : State) (key : Key)
    (hcx : s.cx ≠ -1) (hcy : s.cy = -1) :
    setCoords env s key = some { s with
      cy := decodeKey key
      out := s.out ++ [printLine (env.wCell * s.cx - env.cfg.GridStep * s.gx)
                         (env.hCell * decodeKey key - env.cfg.GridStep * s.gy)]
      exit := true } := by
  simp [setCoords, hcx, hcy]

/-- C1, the example of the specification: with `cx = 3`, row key `f`
(index 5), `wCell = 30`, `hCell = 20`, `GridStep = 10`, `gx = 2`, `gy = -1`
the line written is `70 110`. -/
theorem setCoords_row_emits_witness :
    decodeKey Key.f = 5 ∧
      (setCoords exEnv exColumnChosen Key.f).map State.out = some ["70 110"] :=
  ⟨by decide, by
    rw [setCoords_row_emits exEnv exColumnChosen Key.f (by decide) (by decide)]
    decide⟩

/-- C2: on a screen 1366 pixels wide `init` computes `wCell = 39`, which is
not the ceiling `40` of `1366/35`, and 35 cells of that width end at pixel
1365, short of the screen width. -/
theorem init_wCell_1366 (cfg : Config) :
    (init 1366 768 cfg).wCell = 39 ∧ (init 1366 768 cfg).wCell * 35 < 1366 ∧
      ⌈(1366 : ℚ) / 35⌉ = 40 := by
  have hw : (init 1366 768 cfg).wCell = 39 := rfl
  refine ⟨hw, ?_, ?_⟩
  · rw [hw]
    decide
  · rw [Int.ceil_eq_iff]
    norm_num

/-- C3: from Idle (`cx = -1`, `cy = -1`, exit flag clear), in a state whose
overlay can be rebuilt, a frame without Escape that dispatches the label key
`key` with label `l` returns no error and leaves `keyCol = l`,
`cx = decodeKey key` (an index in 0..34, so not -1), `cy = -1`, `gx`, `gy`
unchanged, nothing written to standard output and the exit flag clear. -/
theorem Update_idle_label (env : Env) (s : State) (inp : Input) (key : Key) (l : String)
    (hcx : s.cx = -1) (hcy : s.cy = -1) (hexit : s.exit = false)
    (hesc : inp.pressed Key.escape = false)
    (hk : dispatched inp = some key) (hl : labelOf key = some l)
    (hb : canBuild env s.gx s.gy = true) :
    ∃ s1, Update env s inp = some (s1, none) ∧
      s1.keyCol = l ∧ s1.cx = decodeKey key ∧ 0 ≤ s1.cx ∧ s1.cx ≤ 34 ∧ s1.cx ≠ -1 ∧
      s1.cy = -1 ∧ s1.gx = s.gx ∧ s1.gy = s.gy ∧ s1.out = s.out ∧ s1.exit = false := by
  have hr := decodeKey_label_range key (by simp [isLabelKey, hl])
  obtain ⟨ao1, ops1, ao2, ops2, _, _, hm⟩ := makeGrid_of_canBuild env
    { s with frames := s.frames + 1, keyCol := l, cx := decodeKey key } hb
  have hU : Update env s inp = some ({ s with
      frames := s.frames + 1
      keyCol := l
      cx := decodeKey key
      gridImg := some (overlay env
        { s with frames := s.frames + 1, keyCol := l, cx := decodeKey key }
        (ops1 ++ ops2)) }, none) := by
    simp only [Update, hesc, keyListeners_dispatched env _ inp key hk, keyAction, hl,
      setCoords, hcx, if_true]
    rw [hm]
    simp [hexit]
  refine ⟨_, hU, rfl, rfl, hr.1, hr.2, ?_, hcy, rfl, rfl, rfl, hexit⟩
  show decodeKey key ≠ -1
  omega

/-- C3 at a concrete frame: from the initial state, releasing `d` chooses
column 3. -/
theorem Update_idle_label_witness :
    ∃ s1, Update exEnv State.initial exReleaseD = some (s1, none) ∧
      s1.keyCol = "d" ∧ s1.cx = decodeKey Key.d ∧ 0 ≤ s1.cx ∧ s1.cx ≤ 34 ∧ s1.cx ≠ -1 ∧
      s1.cy = -1 ∧ s1.gx = State.initial.gx ∧ s1.gy = State.initial.gy ∧
      s1.out = State.initial.out ∧ s1.exit = false :=
  Update_idle_label exEnv State.initial exReleaseD Key.d "d"
    (by decide) (by decide) (by decide) (by decide) (by decide) (by decide)
    (canBuild_of_cover exEnv 0 0 (by decide) (by decide) (by decide) (by decide) (by decide))

/-- C4: from ColumnChosen (`cx ≠ -1`, `cy = -1`) a frame without Escape that
dispatches the label key `key` with label `l` sets `cy = decodeKey key`,
leaves `cx`, `gx`, `gy` and the overlay unchanged, appends exactly one
coordinate line to standard output, sets the exit flag, and returns the
regular-termination error in that same frame. -/
theorem Update_columnChosen_label (env : Env) (s : State) (inp : Input) (key : Key)
    (l : String) (hcx : s.cx ≠ -1) (hcy : s.cy = -1)
    (hesc : inp.pressed Key.escape = false)
    (hk : dispatched inp = some key) (hl : labelOf key = some l) :
    Update env s inp = some ({ s with
      frames := s.frames + 1
      keyCol := l
      cy := decodeKey key
      out := s.out ++ [printLine (env.wCell * s.cx - env.cfg.GridStep * s.gx)
                         (env.hCell * decodeKey key - env.cfg.GridStep * s.gy)]
      exit := true }, some Err.errRegularTermination) := by
  simp [Update, hesc, keyListeners_dispatched env _ inp key hk, keyAction, hl,
    setCoords, hcx, hcy]

/-- C4 at a concrete frame: with column 3 chosen and pan offset `(2, -1)`,
releasing `c` and `f` together dispatches `c` (row 2) and ends the session
with the line `70 50`. -/
theorem Update_columnChosen_label_witness :
    Update exEnv exColumnChosen exReleaseCF = some ({ exColumnChosen with
      frames := 1, keyCol := "c", cy := 2, out := ["70 50"], exit := true },
      some Err.errRegularTermination) := by
  rw [Update_columnChosen_label exEnv exColumnChosen exReleaseCF Key.c "c"
    (by decide) (by decide) (by decide) (by decide) (by decide)]
  decide

/-- C5: under the key numbering of `Key.code` (letters 0..25, digits 1..9 at
44..52) the decoding of `setCoords` sends a label key of code `c` to `c` when
`c ≤ 25` and to `c - 18` when `c > 25`; the result lies in 0..34 and
`keys[decodeKey key]` is the label of the key, the string the key listeners
of `Update` assign to `keyCol` before they call `setCoords` with the key; the
decoding is injective on the 35 label keys and reaches every index of
0..34. -/
theorem decodeKey_bijection :
    (Key.a.code = 0 ∧ Key.z.code = 25 ∧ Key.digit1.code = 44 ∧ Key.digit9.code = 52) ∧
    (dispatchOrder.filter isLabelKey).length = 35 ∧
    (∀ key l, labelOf key = some l → ∀ env s1 inp, dispatched inp = some key →
      keyListeners env s1 inp = setCoords env { s1 with keyCol := l } key) ∧
    (∀ key, isLabelKey key = true →
      decodeKey key = (if key.code > 25 then key.code - 18 else key.code) ∧
      0 ≤ decodeKey key ∧ decodeKey key ≤ 34 ∧ keyAt (decodeKey key) = labelOf key) ∧
    (∀ k1 k2, isLabelKey k1 = true → isLabelKey k2 = true →
      decodeKey k1 = decodeKey k2 → k1 = k2) ∧
    (∀ i : Int, 0 ≤ i → i ≤ 34 → ∃ key, isLabelKey key = true ∧ decodeKey key = i) := by
  refine ⟨by decide, by decide, ?_, ?_, ?_, ?_⟩
  · intro key l hl env s1 inp hk
    rw [keyListeners_dispatched env s1 inp key hk]
    simp [keyAction, hl]
  · intro key hl
    cases key <;> first | (exact absurd hl (by decide)) | decide
  · intro k1 k2 h1 h2 he
    cases k1 <;> first | (exact absurd h1 (by decide)) |
      (cases k2 <;> first | (exact absurd h2 (by decide)) | rfl | (exact absurd he (by decide)))
  · intro i h0 h1
    have hi : i = 0 ∨ i = 1 ∨ i = 2 ∨ i = 3 ∨ i = 4 ∨ i = 5 ∨ i = 6 ∨ i = 7 ∨ i = 8 ∨ i = 9 ∨
        i = 10 ∨ i = 11 ∨ i = 12 ∨ i = 13 ∨ i = 14 ∨ i = 15 ∨ i = 16 ∨ i = 17 ∨ i = 18 ∨
        i = 19 ∨ i = 20 ∨ i = 21 ∨ i = 22 ∨ i = 23 ∨ i = 24 ∨ i = 25 ∨ i = 26 ∨ i = 27 ∨
        i = 28 ∨ i = 29 ∨ i = 30 ∨ i = 31 ∨ i = 32 ∨ i = 33 ∨ i = 34 := by omega
    rcases hi with h | h | h | h | h | h | h | h | h | h | h | h | h | h | h | h | h | h |
      h | h | h | h | h | h | h | h | h | h | h | h | h | h | h | h | h <;> subst h
    · exact ⟨Key.a, by decide⟩
    · exact ⟨Key.b, by decide⟩
    · exact ⟨Key.c, by decide⟩
    · exact ⟨Key.d, by decide⟩
    · exact ⟨Key.e, by decide⟩
    · exact ⟨Key.f, by decide⟩
    · exact ⟨Key.g, by decide⟩
    · exact ⟨Key.h, by decide⟩
    · exact ⟨Key.i, by decide⟩
    · exact ⟨Key.j, by decide⟩
    · exact ⟨Key.k, by decide⟩
    · exact ⟨Key.l, by decide⟩
    · exact ⟨Key.m, by decide⟩
    · exact ⟨Key.n, by decide⟩
    · exact ⟨Key.o, by decide⟩
    · exact ⟨Key.p, by decide⟩
    · exact ⟨Key.q, by decide⟩
    · exact ⟨Key.r, by decide⟩
    · exact ⟨Key.s, by decide⟩
    · exact ⟨Key.t, by decide⟩
    · exact ⟨Key.u, by decide⟩
    · exact ⟨Key.v, by decide⟩
    · exact ⟨Key.w, by decide⟩
    · exact ⟨Key.x, by decide⟩
    · exact ⟨Key.y, by decide⟩
    · exact ⟨Key.z, by decide⟩
    · exact ⟨Key.digit1, by decide⟩
    · exact ⟨Key.digit2, by decide⟩
    · exact ⟨Key.digit3, by decide⟩
    · exact ⟨Key.digit4, by decide⟩
    · exact ⟨Key.digit5, by decide⟩
    · exact ⟨Key.digit6, by decide⟩
    · exact ⟨Key.digit7, by decide⟩
    · exact ⟨Key.digit8, by decide⟩
    · exact ⟨Key.digit9, by decide⟩

/-- C5 at the key `3`: its code 46 decodes to index 28, and `keys[28]` is the
label `3`. -/
theorem decodeKey_bijection_witness :
    decodeKey Key.digit3 = 28 ∧ keyAt 28 = some "3" := by
  have h := decodeKey_bijection.2.2.2.1 Key.digit3 (by decide)
  have hd : decodeKey Key.digit3 = 28 := by decide
  refine ⟨hd, ?_⟩
  rw [← hd, h.2.2.2]
  decide

/-- C6: when Escape is held, `Update` returns the regular-termination error
whatever keys were released in the frame; only the frame counter advances, so
`cx`, `cy`, `gx`, `gy`, `keyCol`, the overlay and standard output are
unchanged: no label or arrow key is dispatched. -/
theorem Update_escape (env : Env) (s : State) (inp : Input)
    (hesc : inp.pressed Key.escape = true) :
    Update env s inp =
      some ({ s with frames := s.frames + 1 }, some Err.errRegularTermination) := by
  simp [Update, hesc]

/-- C6 at a concrete frame: with column 3 chosen, Escape held while `d` and
the Up arrow are released ends the session with nothing written. -/
theorem Update_escape_witness :
    Update exEnv exColumnChosen exEscape =
      some ({ exColumnChosen with frames := 1 }, some Err.errRegularTermination) := by
  rw [Update_escape exEnv exColumnChosen exEscape (by decide)]
  decide

/-- C7: for every sequence `ks` of arrow-key releases applied by `moveGrid`
from a state `s`, one call per release: whenever the run returns, the offset is
`gx = s.gx + #Left - #Right` and `gy = s.gy + #Up - #Down`, with no clamping;
the run does return when the overlay can be rebuilt at the offset reached
after each press; and a single press changes exactly one of `gx`, `gy`, by
exactly 1 (Up `gy+1`, Down `gy-1`, Right `gx-1`, Left `gx+1`). -/
theorem moveGrid_sequence (env : Env) (s : State) (ks : List Key)
    (hks : ∀ key ∈ ks, isArrowKey key = true)
    (hb : ∀ n, n < ks.length →
      canBuild env (s.gx + netX (ks.take (n + 1))) (s.gy + netY (ks.take (n + 1))) = true) :
    (∃ s1, moveGridAll env s ks = some s1 ∧
      s1.gx = s.gx + (ks.count Key.arrowLeft : Int) - (ks.count Key.arrowRight : Int) ∧
      s1.gy = s.gy + (ks.count Key.arrowUp : Int) - (ks.count Key.arrowDown : Int)) ∧
    (∀ key ∈ ks, ∀ t t1, moveGrid env t key = some t1 →
      (t1.gx = t.gx + 1 ∧ t1.gy = t.gy ∧ key = Key.arrowLeft) ∨
      (t1.gx = t.gx - 1 ∧ t1.gy = t.gy ∧ key = Key.arrowRight) ∨
      (t1.gx = t.gx ∧ t1.gy = t.gy + 1 ∧ key = Key.arrowUp) ∨
      (t1.gx = t.gx ∧ t1.gy = t.gy - 1 ∧ key = Key.arrowDown)) := by
  constructor
  · obtain ⟨s1, h1⟩ := Option.isSome_iff_exists.mp (moveGridAll_isSome env ks s hb)
    have h2 := moveGridAll_offset env ks s s1 h1
    refine ⟨s1, h1, ?_, ?_⟩
    · rw [h2.1, netX]; omega
    · rw [h2.2, netY]; omega
  · intro key hkey t t1 h
    obtain ⟨img, ht1⟩ := makeGrid_frame env (pan t key) t1 h
    have ha := hks key hkey
    subst ht1
    cases key <;> first | (exact absurd ha (by decide)) | simp [pan]

/-- C7, the example of the specification: four Up presses from offset
`(0, 0)` give `gy = 4` with `gx = 0`, and a following Left press gives
`gx = 1`. -/
theorem moveGrid_sequence_witness :
    (∃ s1, moveGridAll exEnv State.initial (exPresses.take 4) = some s1 ∧
      s1.gx = 0 ∧ s1.gy = 4) ∧
    (∃ s1, moveGridAll exEnv State.initial exPresses = some s1 ∧ s1.gx = 1 ∧ s1.gy = 4) := by
  have hc : ∀ gx gy : Int, 0 ≤ gx → gx ≤ 1 → 0 ≤ gy → gy ≤ 4 → canBuild exEnv gx gy = true := by
    intro gx gy h0 h1 h2 h3
    apply canBuild_of_cover
    · show 10 * gx < 1050
      omega
    · show 10 * gy < 700
      omega
    · decide
    · decide
    · decide
  constructor
  · obtain ⟨s1, h1, h2, h3⟩ := (moveGrid_sequence exEnv State.initial (exPresses.take 4)
      (by decide) (by
        intro n hn
        have hn4 : n < 4 := by simpa [exPresses] using hn
        interval_cases n <;> exact hc _ _ (by decide) (by decide) (by decide) (by decide))).1
    exact ⟨s1, h1, by simpa [exPresses, State.initial] using h2,
      by simpa [exPresses, State.initial] using h3⟩
  · obtain ⟨s1, h1, h2, h3⟩ := (moveGrid_sequence exEnv State.initial exPresses
      (by decide) (by
        intro n hn
        have hn5 : n < 5 := by simpa [exPresses] using hn
        interval_cases n <;> exact hc _ _ (by decide) (by decide) (by decide) (by decide))).1
    exact ⟨s1, h1, by simpa [exPresses, State.initial] using h2,
      by simpa [exPresses, State.initial] using h3⟩

/-- C8: panning leaves the selection untouched.  For every state and every
arrow key, whenever `moveGrid` returns, and whenever the frame of `Update`
that dispatches the key (Escape not held) returns, `cx`, `cy`, `keyCol`, the
exit flag and standard output are what they were; and both do return when the
overlay can be rebuilt at the new pan offset. -/
theorem moveGrid_keeps_selection (env : Env) (s : State) (inp : Input) (key : Key)
    (ha : isArrowKey key = true)
    (hesc : inp.pressed Key.escape = false) (hk : dispatched inp = some key) :
    (∀ s1, moveGrid env s key = some s1 →
      s1.cx = s.cx ∧ s1.cy = s.cy ∧ s1.keyCol = s.keyCol ∧ s1.exit = s.exit ∧
      s1.out = s.out) ∧
    (∀ s2 e, Update env s inp = some (s2, e) →
      s2.cx = s.cx ∧ s2.cy = s.cy ∧ s2.keyCol = s.keyCol ∧ s2.exit = s.exit ∧
      s2.out = s.out) ∧
    (canBuild env (pan s key).gx (pan s key).gy = true →
      (moveGrid env s key).isSome = true ∧ (Update env s inp).isSome = true) := by
  have hl : labelOf key = none := by
    cases key <;> first | rfl | (exact absurd ha (by decide))
  have hU : ∀ t, keyListeners env t inp = moveGrid env t key := by
    intro t
    rw [keyListeners_dispatched env t inp key hk]
    simp [keyAction, hl]
  have hF : ∀ t t1, moveGrid env t key = some t1 →
      t1.cx = t.cx ∧ t1.cy = t.cy ∧ t1.keyCol = t.keyCol ∧ t1.exit = t.exit ∧
      t1.out = t.out := by
    intro t t1 h
    obtain ⟨img, h1⟩ := makeGrid_frame env (pan t key) t1 h
    have hp := pan_offset t key
    subst h1
    exact ⟨hp.2.2.1, hp.2.2.2.1, hp.2.2.2.2.1, hp.2.2.2.2.2.1, hp.2.2.2.2.2.2.1⟩
  refine ⟨hF s, ?_, ?_⟩
  · intro s2 e h
    rw [Update_of_listeners env s inp hesc, hU] at h
    cases em : moveGrid env { s with frames := s.frames + 1 } key with
    | none => simp [em] at h
    | some t =>
      simp only [em, Option.map_some', Option.some.injEq, Prod.mk.injEq] at h
      rw [← h.1]
      exact hF { s with frames := s.frames + 1 } t em
  · intro hb
    obtain ⟨_, _, _, _, _, _, hm⟩ := makeGrid_of_canBuild env (pan s key) hb
    have hp := pan_offset s key
    have hp1 := pan_offset { s with frames := s.frames + 1 } key
    have hb1 : canBuild env (pan { s with frames := s.frames + 1 } key).gx
        (pan { s with frames := s.frames + 1 } key).gy = true := by
      rw [hp1.1, hp1.2.1]
      rw [hp.1, hp.2.1] at hb
      exact hb
    obtain ⟨_, _, _, _, _, _, hm1⟩ := makeGrid_of_canBuild env _ hb1
    constructor
    · simp [moveGrid, hm]
    · rw [Update_of_listeners env s inp hesc, hU]
      simp [moveGrid, hm1]

/-- C8 at a concrete frame: with column 3 chosen at offset `(2, -1)`, the
frame that releases Left returns, and it keeps `cx = 3`, `cy = -1`,
`keyCol = d`, the exit flag clear and nothing written. -/
theorem moveGrid_keeps_selection_witness :
    ∃ s2 e, Update exEnv exColumnChosen exReleaseLeft = some (s2, e) ∧
      s2.cx = 3 ∧ s2.cy = -1 ∧ s2.keyCol = "d" ∧ s2.exit = false ∧ s2.out = [] := by
  have h := moveGrid_keeps_selection exEnv exColumnChosen exReleaseLeft Key.arrowLeft
    (by decide) (by decide) (by decide)
  have hsome := (h.2.2 (canBuild_of_cover exEnv _ _ (by decide) (by decide) (by decide)
    (by decide) (by decide))).2
  obtain ⟨⟨s2, e⟩, hu⟩ := Option.isSome_iff_exists.mp hsome
  exact ⟨s2, e, hu, h.2.1 s2 e hu⟩

/-- C9: in every rebuild whose overlay can be built, every pixel of the
finished grid image holds one of the two line colours or the arrow colour at
an opacity that obeys the rule for the column of the pixel (the column `x`
overlaid at `px = x * wCell` by the vertical sweep, the column `px / wCell`
for the horizontal sweep): `ArrowOpacity` when `cx = -1` or the label of the
column is `keyCol`, and `ArrowOpacity/4` (truncating division) when a column is
chosen and it is not that one.  In particular a pixel that holds the arrow
colour, when the line colours differ from it, has exactly that opacity.  The
pixel `(0, 0)`, where the first arrow write of the call sequence lands, is
written again by the horizontal sweep, so when it lies on the image it holds a
colour, and that colour obeys the rule as well. -/
theorem makeGrid_arrow_pixels (env : Env) (s : State)
    (hb : canBuild env s.gx s.gy = true) :
    ∃ sets, makeGrid env s = some { s with gridImg := some (overlay env s sets) } ∧
      (∀ px py c, gridPixel (overlay env s sets) px py = some c →
        c = getColour env.cfg.LineDropColour env.cfg.LineOpacity ∨
        c = getColour env.cfg.LineColour env.cfg.LineOpacity ∨
        ∃ k, ((∃ x, keyAt x = some k ∧ px = x * env.wCell) ∨
            keyAt (Int.tdiv px env.wCell) = some k) ∧
          c = getColour env.cfg.ArrowColour
            (if s.cx = -1 ∨ k = s.keyCol then env.cfg.ArrowOpacity
              else Int.tdiv env.cfg.ArrowOpacity 4)) ∧
      (∀ px py c, gridPixel (overlay env s sets) px py = some c →
        c.hex = env.cfg.ArrowColour → env.cfg.LineDropColour ≠ env.cfg.ArrowColour →
        env.cfg.LineColour ≠ env.cfg.ArrowColour →
        ∃ k, ((∃ x, keyAt x = some k ∧ px = x * env.wCell) ∨
            keyAt (Int.tdiv px env.wCell) = some k) ∧
          c = getColour env.cfg.ArrowColour
            (if s.cx = -1 ∨ k = s.keyCol then env.cfg.ArrowOpacity
              else Int.tdiv env.cfg.ArrowOpacity 4)) ∧
      (env.cfg.GridStep * s.gx ≤ 0 → env.cfg.GridStep * s.gy ≤ 0 → 0 < env.w →
        0 < env.h → (gridPixel (overlay env s sets) 0 0).isSome = true) := by
  obtain ⟨sets, hm, hc, h00⟩ := makeGrid_pixels_conform env s hb
  refine ⟨sets, hm, fun px py c hp => hc px py c hp, ?_, h00⟩
  intro px py c hp hhex hd hl
  rcases hc px py c hp with e | e | e
  · rw [e] at hhex
    exact absurd hhex hd
  · rw [e] at hhex
    exact absurd hhex hl
  · exact e

/-- C9 at a concrete rebuild: with column `d` chosen on the 1050 by 700
screen (`ArrowOpacity = 200`), the pixel `(0, 0)` of the finished grid image,
in column `a`, holds a colour, and it is a line colour or the arrow colour at
opacity `50 = 200/4`. -/
theorem makeGrid_arrow_pixels_witness :
    ∃ sets c, makeGrid exEnv exFirstPick =
        some { exFirstPick with gridImg := some (overlay exEnv exFirstPick sets) } ∧
      gridPixel (overlay exEnv exFirstPick sets) 0 0 = some c ∧
      (c = getColour "000000" 100 ∨ c = getColour "ffffff" 100 ∨
        c = getColour "ff0000" 50) := by
  obtain ⟨sets, hm, hc, _, h00⟩ := makeGrid_arrow_pixels exEnv exFirstPick
    (canBuild_of_cover exEnv _ _ (by decide) (by decide) (by decide) (by decide) (by decide))
  obtain ⟨c, hpix⟩ := Option.isSome_iff_exists.mp
    (h00 (by decide) (by decide) (by decide) (by decide))
  refine ⟨sets, c, hm, hpix, ?_⟩
  rcases hc 0 0 c hpix with e | e | ⟨k, hk, e⟩
  · exact Or.inl e
  · exact Or.inr (Or.inl e)
  · have hka : k = "a" := by
      have h0 : keyAt 0 = some "a" := rfl
      rcases hk with ⟨x, hx, hpx⟩ | hk
      · have hpx1 : (0 : Int) = x * 30 := hpx
        have hx0 : x = 0 := by omega
        rw [hx0, h0] at hx
        exact (Option.some.inj hx).symm
      · have ht : Int.tdiv 0 exEnv.wCell = 0 := rfl
        rw [ht, h0] at hk
        exact (Option.some.inj hk).symm
    rw [hka] at e
    exact Or.inr (Or.inr e)

/-- C10: a rebuild whose overlay can be built draws, after the pixel writes of
the two sweeps, only labels; and for every cell `(x, y)` of the 35 by 35 grid
the draws of the label `keys[x] + keys[y]` are exactly two, the drop-shadow
copy at `(x*wCell + 11 - GridStep*gx, y*hCell + 19 - GridStep*gy)` in
`FontDropColour` and then the primary copy at
`(x*wCell + 10 - GridStep*gx, y*hCell + 18 - GridStep*gy)` in `FontColour`,
both with opacity `FontOpacity` when `cx = -1` or `keys[x] = keyCol` and with
`FontOpacity/4` (truncating division) otherwise. -/
theorem makeGrid_labels (env : Env) (s : State) (hb : canBuild env s.gx s.gy = true) :
    ∃ sets, makeGrid env s = some { s with gridImg := some (overlay env s sets) } ∧
      (∀ op ∈ sets, isSet op = true) ∧
      ∀ x y : Int, 0 ≤ x → x < 35 → 0 ≤ y → y < 35 →
        ∃ kx ky opacity, keyAt x = some kx ∧ keyAt y = some ky ∧
          opacity = (if s.cx = -1 ∨ kx = s.keyCol then env.cfg.FontOpacity
            else Int.tdiv env.cfg.FontOpacity 4) ∧
          (overlay env s sets).ops.filter (drawsLabel (kx ++ ky)) =
            [DrawOp.text (kx ++ ky) (x * env.wCell + 11 - env.cfg.GridStep * s.gx)
               (y * env.hCell + 19 - env.cfg.GridStep * s.gy)
               (getColour env.cfg.FontDropColour opacity),
             DrawOp.text (kx ++ ky) (x * env.wCell + 10 - env.cfg.GridStep * s.gx)
               (y * env.hCell + 18 - env.cfg.GridStep * s.gy)
               (getColour env.cfg.FontColour opacity)] := by
  obtain ⟨ao1, ops1, ao2, ops2, e1, e2, hm⟩ := makeGrid_of_canBuild env s hb
  have hsets : ∀ op ∈ ops1 ++ ops2, isSet op = true := by
    intro op hop
    rcases List.mem_append.mp hop with h | h
    · exact vSweep_sets env s _ _ _ e1 op h
    · exact hSweep_sets env s _ _ _ e2 op h
  refine ⟨ops1 ++ ops2, hm, hsets, ?_⟩
  intro x y hx0 hx1 hy0 hy1
  have hx : x ∈ upTo gridSize := upTo_mem hx0 (by simpa [gridSize, keys] using hx1)
  have hy : y ∈ upTo gridSize := upTo_mem hy0 (by simpa [gridSize, keys] using hy1)
  obtain ⟨kx, ekx, _, _⟩ := keyAt_mem hx
  obtain ⟨ky, eky, _, _⟩ := keyAt_mem hy
  refine ⟨kx, ky, _, ekx, eky, rfl, ?_⟩
  have hlab : cellLabel x y = kx ++ ky := by simp [cellLabel, ekx, eky]
  have hnil : (ops1 ++ ops2).filter (drawsLabel (kx ++ ky)) = [] := by
    rw [List.filter_eq_nil_iff]
    intro op hop
    have := hsets op hop
    cases op <;> simp_all [isSet, drawsLabel]
  have hf := filter_labelDraws env s x y hx hy
  rw [hlab] at hf
  simp only [overlay, List.filter_append, hnil, List.nil_append, hf]
  simp only [cellDraws, hlab, labelOpacity, ekx, Option.some.injEq]

/-- C10 at a concrete rebuild: with column `d` chosen on the 1050 by 700
screen, the rebuild completes and the label `af` of cell `(0, 5)` is drawn
exactly twice, both copies at the quarter opacity 63 = 255/4. -/
theorem makeGrid_labels_witness :
    ∃ sets, makeGrid exEnv exFirstPick =
        some { exFirstPick with gridImg := some (overlay exEnv exFirstPick sets) } ∧
      (overlay exEnv exFirstPick sets).ops.filter (drawsLabel "af") =
        [DrawOp.text "af" 11 119 (getColour "000000" 63),
         DrawOp.text "af" 10 118 (getColour "ffffff" 63)] := by
  obtain ⟨sets, hm, _, hl⟩ := makeGrid_labels exEnv exFirstPick
    (canBuild_of_cover exEnv _ _ (by decide) (by decide) (by decide) (by decide) (by decide))
  obtain ⟨kx, ky, opacity, ekx, eky, eo, hf⟩ := hl 0 5 (by decide) (by decide) (by decide)
    (by decide)
  have hkx : kx = "a" := by
    have h : keyAt 0 = some "a" := rfl
    rw [h] at ekx
    exact (Option.some.inj ekx).symm
  have hky : ky = "f" := by
    have h : keyAt 5 = some "f" := rfl
    rw [h] at eky
    exact (Option.some.inj eky).symm
  subst hkx
  subst hky
  have ho : opacity = 63 := by
    rw [eo]
    decide
  subst ho
  exact ⟨sets, hm, hf⟩

/-- C12: on a screen 1366 pixels wide with `ArrowSize = 1` the horizontal
sweep of `makeGrid` is not safe: `init` gives `wCell = 39`, the pixel column
`x = 1365` lies in the arrow band (`1365 % 39 = 0 < 1`) and its index
`1365 / 39 = 35` is past the 35-element alphabet, so the rebuild panics; and on
a screen one pixel wide `init` gives `wCell = 0`. -/
theorem makeGrid_hSweep_unsafe_1366 :
    (init 1366 768 exCfg).wCell = 39 ∧
      Int.tmod 1365 (init 1366 768 exCfg).wCell < exCfg.ArrowSize ∧
      Int.tdiv 1365 (init 1366 768 exCfg).wCell = 35 ∧ keyAt 35 = none ∧
      hSafe (init 1366 768 exCfg) = false ∧
      makeGrid (init 1366 768 exCfg) State.initial = none ∧
      (init 1 768 exCfg).wCell = 0 := by
  have hs : hSafe (init 1366 768 exCfg) = false := by
    unfold hSafe
    rw [List.all_eq_false]
    exact ⟨1365, upTo_mem (by decide) (by decide), by decide⟩
  refine ⟨rfl, by decide, rfl, rfl, hs, ?_, rfl⟩
  apply makeGrid_none_of_not_canBuild
  simp [canBuild, hs]

/-- C17: for every screen size `w, h ≥ 0` the cell size `init` computes,
`(w + w mod 35) / 35`, is `w/35` rounded to the nearest integer: it is
`floor(w/35) + 1` when `2 * (w mod 35) ≥ 35` and `floor(w/35)` otherwise; so it
lies between `floor(w/35)` and `ceil(w/35)` and `|35*wCell - w| ≤ 17`; likewise
for `hCell` and `h`. -/
theorem init_cells_nearest (w h : Int) (cfg : Config) (hw : 0 ≤ w) (hh : 0 ≤ h) :
    ((init w h cfg).wCell = if 35 ≤ 2 * (w % 35) then w / 35 + 1 else w / 35) ∧
    (w / 35 ≤ (init w h cfg).wCell ∧ (init w h cfg).wCell ≤ ⌈(w : ℚ) / 35⌉) ∧
    |35 * (init w h cfg).wCell - w| ≤ 17 ∧
    ((init w h cfg).hCell = if 35 ≤ 2 * (h % 35) then h / 35 + 1 else h / 35) ∧
    (h / 35 ≤ (init w h cfg).hCell ∧ (init w h cfg).hCell ≤ ⌈(h : ℚ) / 35⌉) ∧
    |35 * (init w h cfg).hCell - h| ≤ 17 := by
  have e1 : (init w h cfg).wCell = if 35 ≤ 2 * (w % 35) then w / 35 + 1 else w / 35 :=
    cell_nearest w hw
  have e2 : (init w h cfg).hCell = if 35 ≤ 2 * (h % 35) then h / 35 + 1 else h / 35 :=
    cell_nearest h hh
  refine ⟨e1, ⟨?_, ?_⟩, ?_, e2, ⟨?_, ?_⟩, ?_⟩
  · rw [e1]; split <;> omega
  · apply cell_le_ceil
    rw [e1]; split <;> omega
  · rw [e1, abs_le]; split <;> constructor <;> omega
  · rw [e2]; split <;> omega
  · apply cell_le_ceil
    rw [e2]; split <;> omega
  · rw [e2, abs_le]; split <;> constructor <;> omega

/-- C17 at the 1366 by 768 screen: `1366 mod 35 = 1` rounds down to 39 and
`768 mod 35 = 33` rounds up to 22. -/
theorem init_cells_nearest_witness :
    (init 1366 768 exCfg).wCell = 1366 / 35 ∧ (init 1366 768 exCfg).wCell = 39 ∧
      (init 1366 768 exCfg).hCell = 768 / 35 + 1 ∧ (init 1366 768 exCfg).hCell = 22 := by
  have h := init_cells_nearest 1366 768 exCfg (by decide) (by decide)
  refine ⟨?_, rfl, ?_, rfl⟩
  · rw [h.1]; decide
  · rw [h.2.2.2.1]; decide

/-- C11: in every state reached from an initial state (`cx = cy = -1`, exit
flag clear, nothing written) by any sequence of `Update` frames: `cx = -1`
implies `cy = -1`; `cy ≠ -1` holds exactly when the exit flag is set; the
number of lines written is 0 while `cy = -1` and exactly 1 otherwise; and
`setCoords` is a no-op once both `cx` and `cy` are set, so the coordinate is
never written twice. -/
theorem runFrames_selection_invariant (env : Env) (s0 s : State) (inps : List Input)
    (hcx : s0.cx = -1) (hcy : s0.cy = -1) (hexit : s0.exit = false) (hout : s0.out = [])
    (hr : runFrames env s0 inps = some s) :
    (s.cx = -1 → s.cy = -1) ∧ (s.cy ≠ -1 ↔ s.exit = true) ∧
    (s.cy = -1 → s.out.length = 0) ∧ (s.cy ≠ -1 → s.out.length = 1) ∧
    (∀ key, s.cx ≠ -1 → s.cy ≠ -1 → setCoords env s key = some s) := by
  obtain ⟨i1, i2, i3, i4, _⟩ :=
    runFrames_frameInv env inps s0 s (frameInv_of_idle s0 hcx hcy hexit hout) hr
  exact ⟨i1, i2, i3, i4, fun key h1 h2 => setCoords_done env s key h1 h2⟩

/-- C11 at a concrete run: from the initial state the frames that release
`d`, then `c` and `f` together, end with `cx = 3`, `cy = 2`, the exit flag
set and exactly one line written. -/
theorem runFrames_selection_invariant_witness :
    ∃ s, runFrames exEnv State.initial [exReleaseD, exReleaseCF] = some s ∧
      s.cx = 3 ∧ s.cy = 2 ∧ s.exit = true ∧ s.out.length = 1 := by
  obtain ⟨sets, hrun⟩ := runFrames_example
  have h := runFrames_selection_invariant exEnv State.initial _ [exReleaseD, exReleaseCF]
    rfl rfl rfl rfl hrun
  have hcy : (2 : Int) ≠ -1 := by decide
  exact ⟨_, hrun, rfl, rfl, h.2.1.mp hcy, h.2.2.2.1 hcy⟩

/-- C13: in a frame without Escape the key listeners test the keys in the
fixed order a..z, 1..9, Up, Right, Down, Left; the dispatched key is the first
of that order that was released, and `Update` does exactly what it does in the
frame where only that key is released, whatever else was released; when none
of them was released the frame only advances the frame counter.  In
particular, when two label keys are released in the same frame while Idle, the
frame ends in ColumnChosen (`cx ≠ -1`, `cy = -1`, nothing written, no error),
not in Done. -/
theorem Update_first_released (env : Env) (s : State) (inp : Input)
    (hesc : inp.pressed Key.escape = false) :
    dispatchOrder =
      [Key.a, Key.b, Key.c, Key.d, Key.e, Key.f,
       Key.g, Key.h, Key.i, Key.j, Key.k, Key.l,
       Key.m, Key.n, Key.o, Key.p, Key.q, Key.r,
       Key.s, Key.t, Key.u, Key.v, Key.w, Key.x,
       Key.y, Key.z, Key.digit1, Key.digit2, Key.digit3, Key.digit4,
       Key.digit5, Key.digit6, Key.digit7, Key.digit8, Key.digit9, Key.arrowUp,
       Key.arrowRight, Key.arrowDown, Key.arrowLeft] ∧
    (∀ key, dispatched inp = some key →
      inp.justReleased key = true ∧
      (∃ pre post, dispatchOrder = pre ++ key :: post ∧
        ∀ k0 ∈ pre, inp.justReleased k0 = false) ∧
      Update env s inp = Update env s (onlyKey key)) ∧
    (dispatched inp = none →
      (∀ key ∈ dispatchOrder, inp.justReleased key = false) ∧
      Update env s inp = some ({ s with frames := s.frames + 1 },
        if s.exit then some Err.errRegularTermination else none)) ∧
    (∀ k1 k2, k1 ≠ k2 → isLabelKey k1 = true → isLabelKey k2 = true →
      inp.justReleased k1 = true → inp.justReleased k2 = true →
      s.cx = -1 → s.cy = -1 → s.exit = false → canBuild env s.gx s.gy = true →
      ∃ s1, Update env s inp = some (s1, none) ∧ s1.cx ≠ -1 ∧ s1.cy = -1 ∧
        s1.out = s.out) := by
  refine ⟨rfl, ?_, ?_, ?_⟩
  · intro key hk
    refine ⟨List.find?_some hk, find_split _ _ _ hk, ?_⟩
    apply Update_eq_of_dispatched env s inp (onlyKey key) hesc rfl
    rw [hk, dispatched_onlyKey key (dispatched_mem inp key hk)]
  · intro hk
    constructor
    · intro key hkey
      have := List.find?_eq_none.mp hk key hkey
      simpa using this
    · rw [Update_of_listeners env s inp hesc, keyListeners_idle_frame env _ inp hk]
      rfl
  · intro k1 k2 _ hl1 _ hr1 _ hcx hcy hexit hb
    obtain ⟨key, l, hd, hl⟩ := dispatched_label_of_released inp k1 hl1 hr1
    obtain ⟨sets, hU⟩ := Update_label_idle env s inp key l hcx hexit hesc hd hl hb
    have hr := decodeKey_label_range key (by simp [isLabelKey, hl])
    refine ⟨_, hU, ?_, hcy, rfl⟩
    show decodeKey key ≠ -1
    omega

/-- C13 at a concrete frame: from the initial state, the frame that releases
`c` and `f` together dispatches `c` alone and ends in ColumnChosen. -/
theorem Update_first_released_witness :
    dispatched exReleaseCF = some Key.c ∧
      Update exEnv State.initial exReleaseCF = Update exEnv State.initial (onlyKey Key.c) ∧
      ∃ s1, Update exEnv State.initial exReleaseCF = some (s1, none) ∧ s1.cx ≠ -1 ∧
        s1.cy = -1 ∧ s1.out = State.initial.out := by
  have h := Update_first_released exEnv State.initial exReleaseCF rfl
  exact ⟨rfl, (h.2.1 Key.c rfl).2.2,
    h.2.2.2 Key.c Key.f (by decide) rfl rfl rfl rfl rfl rfl rfl
      (canBuild_of_cover exEnv 0 0 (by decide) (by decide) (by decide) (by decide)
        (by decide))⟩

/-- C16: the key listeners of `Update` never call `setCoords` with the
digit-0 key: it is not among the keys they test, and whatever they do is
`setCoords` with a label key, `moveGrid` with an arrow key, or nothing.  So in
every state reached from an initial state by `Update` frames `cx` and `cy` are
each -1 or an index in 0..34, and while `cx ≠ -1` and `cy = -1` the label
`keyCol` is `keys[cx]`. -/
theorem runFrames_index_invariant (env : Env) (s0 s : State) (inps : List Input)
    (hcx : s0.cx = -1) (hcy : s0.cy = -1) (hexit : s0.exit = false) (hout : s0.out = [])
    (hr : runFrames env s0 inps = some s) :
    Key.digit0 ∉ dispatchOrder ∧
    (∀ s1 inp,
      (∃ key l, key ≠ Key.digit0 ∧ labelOf key = some l ∧
        keyListeners env s1 inp = setCoords env { s1 with keyCol := l } key) ∨
      (∃ key, isArrowKey key = true ∧ keyListeners env s1 inp = moveGrid env s1 key) ∨
      keyListeners env s1 inp = some s1) ∧
    (s.cx = -1 ∨ (0 ≤ s.cx ∧ s.cx ≤ 34)) ∧ (s.cy = -1 ∨ (0 ≤ s.cy ∧ s.cy ≤ 34)) ∧
    (s.cx ≠ -1 → s.cy = -1 → keyAt s.cx = some s.keyCol) := by
  obtain ⟨_, _, _, _, i5, i6, i7⟩ :=
    runFrames_frameInv env inps s0 s (frameInv_of_idle s0 hcx hcy hexit hout) hr
  have h0 : Key.digit0 ∉ dispatchOrder := by decide
  refine ⟨h0, ?_, i5, i6, i7⟩
  intro s1 inp
  cases hd : dispatched inp with
  | none => exact Or.inr (Or.inr (keyListeners_idle_frame env s1 inp hd))
  | some key =>
    have hmem := dispatched_mem inp key hd
    have hne : key ≠ Key.digit0 := fun e => h0 (e ▸ hmem)
    rw [keyListeners_dispatched env s1 inp key hd]
    rcases dispatchOrder_cases key hmem with ⟨l, hl, _, _, _⟩ | ⟨hl, ha⟩
    · exact Or.inl ⟨key, l, hne, hl, keyAction_label env s1 key l hl⟩
    · exact Or.inr (Or.inl ⟨key, ha, keyAction_arrow env s1 key hl⟩)

/-- C16 at a concrete run: after the frame that releases `d` from the initial
state, `cx = 3`, `cy = -1` and `keyCol` is `keys[3]`, the label `d`. -/
theorem runFrames_index_invariant_witness :
    ∃ s, runFrames exEnv State.initial [exReleaseD] = some s ∧
      s.cx = 3 ∧ s.cy = -1 ∧ s.keyCol = "d" ∧ keyAt s.cx = some s.keyCol := by
  obtain ⟨sets, hrun⟩ := runFrames_example_pick
  have h := runFrames_index_invariant exEnv State.initial _ [exReleaseD]
    rfl rfl rfl rfl hrun
  exact ⟨_, hrun, rfl, rfl, rfl, h.2.2.2.2 (by show (3 : Int) ≠ -1; decide) rfl⟩

/-- C14: for every pan offset and every cell `(x, y)` of the grid, with
`(X, Y) = (wCell*x - GridStep*gx, hCell*y - GridStep*gy)` the coordinate that
`setCoords` writes when column `x` is chosen and the row key decodes to `y`:
a rebuild at that offset draws the label of the cell exactly twice, the
drop-shadow copy at `(x*wCell + 11 - GridStep*gx, y*hCell + 19 - GridStep*gy)`
and the primary copy at `(x*wCell + 10 - GridStep*gx, y*hCell + 18 -
GridStep*gy)`, which is `(X + 10, Y + 18)`, the drop-shadow copy lying one
pixel right and one pixel down of it. -/
theorem makeGrid_label_anchor (env : Env) (s : State) (x y : Int) (key : Key)
    (hx0 : 0 ≤ x) (hx1 : x < 35) (hy0 : 0 ≤ y) (hy1 : y < 35) (hkey : decodeKey key = y)
    (hb : canBuild env s.gx s.gy = true) :
    ∃ sets kx ky c1 c2 X Y,
      keyAt x = some kx ∧ keyAt y = some ky ∧
      X = env.wCell * x - env.cfg.GridStep * s.gx ∧
      Y = env.hCell * y - env.cfg.GridStep * s.gy ∧
      setCoords env { s with cx := x, cy := -1 } key =
        some { s with cx := x, cy := y, out := s.out ++ [printLine X Y], exit := true } ∧
      makeGrid env s = some { s with gridImg := some (overlay env s sets) } ∧
      (overlay env s sets).ops.filter (drawsLabel (kx ++ ky)) =
        [DrawOp.text (kx ++ ky) (x * env.wCell + 11 - env.cfg.GridStep * s.gx)
           (y * env.hCell + 19 - env.cfg.GridStep * s.gy) c1,
         DrawOp.text (kx ++ ky) (x * env.wCell + 10 - env.cfg.GridStep * s.gx)
           (y * env.hCell + 18 - env.cfg.GridStep * s.gy) c2] ∧
      x * env.wCell + 10 - env.cfg.GridStep * s.gx = X + 10 ∧
      y * env.hCell + 18 - env.cfg.GridStep * s.gy = Y + 18 ∧
      x * env.wCell + 11 - env.cfg.GridStep * s.gx = (X + 10) + 1 ∧
      y * env.hCell + 19 - env.cfg.GridStep * s.gy = (Y + 18) + 1 := by
  have hx : x ∈ upTo gridSize := upTo_mem hx0 (by simpa [gridSize, keys] using hx1)
  have hy : y ∈ upTo gridSize := upTo_mem hy0 (by simpa [gridSize, keys] using hy1)
  obtain ⟨kx, ekx, _, _⟩ := keyAt_mem hx
  obtain ⟨ky, eky, _, _⟩ := keyAt_mem hy
  obtain ⟨sets, hm, _, hf⟩ := makeGrid_label_filter env s hb
  have hlab : cellLabel x y = kx ++ ky := by simp [cellLabel, ekx, eky]
  have hfxy := hf x y hx hy
  rw [hlab] at hfxy
  have hne : x ≠ -1 := by omega
  have hset := setCoords_chosen env { s with cx := x, cy := -1 } key hne rfl
  rw [hkey] at hset
  refine ⟨sets, kx, ky, getColour env.cfg.FontDropColour (labelOpacity env s x),
    getColour env.cfg.FontColour (labelOpacity env s x), _, _, ekx, eky, rfl, rfl, hset, hm,
    ?_, ?_, ?_, ?_, ?_⟩
  · rw [hfxy]
    simp only [cellDraws, hlab]
  · ring
  · ring
  · ring
  · ring

/-- C14 at a concrete cell: on the 1050 by 700 screen at pan offset `(2, -1)`
the cell of column `d` and row `f` has the coordinate `(70, 110)` and its label
`df` is drawn at `(81, 129)` and at `(80, 128)`. -/
theorem makeGrid_label_anchor_witness :
    ∃ sets c1 c2,
      setCoords exEnv exColumnChosen Key.f =
        some { exColumnChosen with cy := 5, out := [printLine 70 110], exit := true } ∧
      makeGrid exEnv exColumnChosen =
        some { exColumnChosen with
          gridImg := some (overlay exEnv exColumnChosen sets) } ∧
      (overlay exEnv exColumnChosen sets).ops.filter (drawsLabel "df") =
        [DrawOp.text "df" 81 129 c1, DrawOp.text "df" 80 128 c2] := by
  obtain ⟨sets, kx, ky, c1, c2, X, Y, ekx, eky, hX, hY, hset, hm, hf, _⟩ :=
    makeGrid_label_anchor exEnv exColumnChosen 3 5 Key.f (by decide) (by decide) (by decide)
      (by decide) (by decide)
      (canBuild_of_cover exEnv _ _ (by decide) (by decide) (by decide) (by decide)
        (by decide))
  have hkx : kx = "d" := by
    have h : keyAt 3 = some "d" := rfl
    rw [h] at ekx
    exact (Option.some.inj ekx).symm
  have hky : ky = "f" := by
    have h : keyAt 5 = some "f" := rfl
    rw [h] at eky
    exact (Option.some.inj eky).symm
  have hX1 : X = 70 := by rw [hX]; rfl
  have hY1 : Y = 110 := by rw [hY]; rfl
  subst hkx
  subst hky
  rw [hX1, hY1] at hset
  exact ⟨sets, c1, c2, hset, hm, hf⟩

/-- C15: `setCoords` maps the digit-0 key to the index 35, overriding the
remapping that would give `43 - 18 = 25`: in Idle it runs the rebuild with
`cx = 35` (and returns that state when the overlay can be rebuilt), and in
ColumnChosen it sets `cy = 35`, sets the exit flag and writes the line
`wCell*cx - GridStep*gx`, `hCell*35 - GridStep*gy`. -/
theorem setCoords_digit0 (env : Env) (s : State) :
    Key.digit0.code - 18 = 25 ∧ decodeKey Key.digit0 = 35 ∧ keyAt 35 = none ∧
    (s.cx = -1 → setCoords env s Key.digit0 = makeGrid env { s with cx := 35 }) ∧
    (s.cx = -1 → canBuild env s.gx s.gy = true →
      ∃ sets, setCoords env s Key.digit0 = some { s with
        cx := 35
        gridImg := some (overlay env { s with cx := 35 } sets) }) ∧
    (s.cx ≠ -1 → s.cy = -1 →
      setCoords env s Key.digit0 = some { s with
        cy := 35
        out := s.out ++ [printLine (env.wCell * s.cx - env.cfg.GridStep * s.gx)
                           (env.hCell * 35 - env.cfg.GridStep * s.gy)]
        exit := true }) := by
  have hd : decodeKey Key.digit0 = 35 := rfl
  refine ⟨rfl, hd, rfl, ?_, ?_, ?_⟩
  · intro hcx
    rw [setCoords_idle env s Key.digit0 hcx, hd]
  · intro hcx hb
    obtain ⟨_, ops1, _, ops2, _, _, hm⟩ := makeGrid_of_canBuild env { s with cx := 35 } hb
    exact ⟨ops1 ++ ops2, by rw [setCoords_idle env s Key.digit0 hcx, hd, hm]⟩
  · intro hcx hcy
    rw [setCoords_chosen env s Key.digit0 hcx hcy, hd]

/-- C15 at concrete states: from the initial state the digit-0 key sets
`cx = 35`, and with column 3 chosen at pan offset `(2, -1)` it sets `cy = 35`
and writes `70 710`. -/
theorem setCoords_digit0_witness :
    (∃ sets, setCoords exEnv State.initial Key.digit0 = some { State.initial with
        cx := 35
        gridImg := some (overlay exEnv { State.initial with cx := 35 } sets) }) ∧
    setCoords exEnv exColumnChosen Key.digit0 =
      some { exColumnChosen with cy := 35, out := ["70 710"], exit := true } := by
  have h := setCoords_digit0 exEnv State.initial
  have h1 := setCoords_digit0 exEnv exColumnChosen
  refine ⟨h.2.2.2.2.1 rfl (canBuild_of_cover exEnv _ _ (by decide) (by decide) (by decide)
    (by decide) (by decide)), ?_⟩
  rw [h1.2.2.2.2.2 (by decide) rfl]
  decide

/-- C18: with a pan step of 100 pixels on the 1050 by 700 screen, ten Left
presses from offset `(0, 0)` reach `gx = 10`, and the eleventh makes `moveGrid`
panic: the rectangle of the rebuild would start at `x = 1100`, right of its
end `w = 1050`, so its width is negative. -/
theorem moveGrid_panics_far_left :
    ∃ s, moveGridAll exEnvStep100 State.initial (List.replicate 10 Key.arrowLeft) = some s ∧
      s.gx = 10 ∧ s.gy = 0 ∧
      exEnvStep100.w - exEnvStep100.cfg.GridStep * (s.gx + 1) = -50 ∧
      canBuild exEnvStep100 (s.gx + 1) s.gy = false ∧
      moveGrid exEnvStep100 s Key.arrowLeft = none ∧
      moveGridAll exEnvStep100 State.initial (List.replicate 11 Key.arrowLeft) = none := by
  have hc : ∀ gx : Int, 0 ≤ gx → gx ≤ 10 → canBuild exEnvStep100 gx 0 = true := by
    intro gx h0 h1
    apply canBuild_of_cover
    · show 100 * gx < 1050
      omega
    · decide
    · decide
    · decide
    · decide
  have hsome := moveGridAll_isSome exEnvStep100 (List.replicate 10 Key.arrowLeft)
    State.initial (by
      intro n hn
      have hn10 : n < 10 := by simpa using hn
      rw [List.take_replicate, netX_replicate_left, netY_replicate_left]
      have hmin : min (n + 1) 10 = n + 1 := by omega
      rw [hmin]
      have := hc ((n : Int) + 1) (by omega) (by omega)
      simpa [State.initial] using this)
  obtain ⟨s, hs⟩ := Option.isSome_iff_exists.mp hsome
  have hoff := moveGridAll_offset exEnvStep100 _ State.initial s hs
  rw [netX_replicate_left, netY_replicate_left] at hoff
  have hgx : s.gx = 10 := by rw [hoff.1]; rfl
  have hgy : s.gy = 0 := by rw [hoff.2]; rfl
  have hcb : canBuild exEnvStep100 (s.gx + 1) s.gy = false := by
    rw [hgx, hgy]
    rfl
  have hmove : moveGrid exEnvStep100 s Key.arrowLeft = none := by
    apply makeGrid_none_of_not_canBuild
    have hp := pan_offset s Key.arrowLeft
    rw [hp.1, hp.2.1]
    have e1 : netX [Key.arrowLeft] = 1 := rfl
    have e2 : netY [Key.arrowLeft] = 0 := rfl
    rw [e1, e2, add_zero]
    exact hcb
  refine ⟨s, hs, hgx, hgy, by rw [hgx]; rfl, hcb, hmove, ?_⟩
  have h11 : List.replicate 11 Key.arrowLeft =
      List.replicate 10 Key.arrowLeft ++ [Key.arrowLeft] := rfl
  have happ : ∀ (ks : List Key) (t u : State), moveGridAll exEnvStep100 t ks = some u →
      moveGridAll exEnvStep100 t (ks ++ [Key.arrowLeft]) =
        moveGrid exEnvStep100 u Key.arrowLeft := by
    intro ks
    induction ks with
    | nil =>
      intro t u h
      simp only [moveGridAll, Option.some.injEq] at h
      subst h
      cases hm : moveGrid exEnvStep100 t Key.arrowLeft <;>
        simp [moveGridAll, hm]
    | cons k0 rest ih =>
      intro t u h
      simp only [moveGridAll, List.cons_append] at h ⊢
      cases hm : moveGrid exEnvStep100 t k0 with
      | none => simp [hm] at h
      | some t1 =>
        simp only [hm] at h ⊢
        exact ih t1 u h
  rw [h11, happ _ _ _ hs, hmove]

/-- C19: a rebuild changes nothing but the cached overlay (`gx`, `gy`, `cx`,
`cy`, `keyCol`, the exit flag, the output and the frame counter are what they
were), a second rebuild right after it returns the very same state, overlay
included, and the overlay two states get is the same whenever they agree on
`gx`, `gy`, `keyCol` and `cx` (the screen size, the cell sizes and the
configuration being those of the environment); the rebuild returns whenever
the overlay can be built. -/
theorem makeGrid_idempotent (env : Env) (s t : State) :
    (∀ s1, makeGrid env s = some s1 →
      s1.gx = s.gx ∧ s1.gy = s.gy ∧ s1.cx = s.cx ∧ s1.cy = s.cy ∧ s1.keyCol = s.keyCol ∧
      s1.exit = s.exit ∧ s1.out = s.out ∧ s1.frames = s.frames ∧
      makeGrid env s1 = some s1) ∧
    (s.gx = t.gx → s.gy = t.gy → s.keyCol = t.keyCol → s.cx = t.cx →
      (makeGrid env s).map State.gridImg = (makeGrid env t).map State.gridImg) ∧
    (canBuild env s.gx s.gy = true → (makeGrid env s).isSome = true) := by
  refine ⟨?_, makeGrid_congr env s t, (makeGrid_isSome_iff env s).mpr⟩
  intro s1 h
  obtain ⟨img, hs1⟩ := makeGrid_frame env s s1 h
  have h2 := makeGrid_again env s s1 h
  subst hs1
  exact ⟨rfl, rfl, rfl, rfl, rfl, rfl, rfl, rfl, h2⟩

/-- C19 at a concrete rebuild: with column `d` chosen on the 1050 by 700
screen the rebuild returns, and rebuilding its result gives that result
again. -/
theorem makeGrid_idempotent_witness :
    ∃ s1, makeGrid exEnv exFirstPick = some s1 ∧ makeGrid exEnv s1 = some s1 ∧
      s1.cx = 3 ∧ s1.keyCol = "d" := by
  have h := makeGrid_idempotent exEnv exFirstPick exFirstPick
  obtain ⟨s1, hs1⟩ := Option.isSome_iff_exists.mp
    (h.2.2 (canBuild_of_cover exEnv _ _ (by decide) (by decide) (by decide) (by decide)
      (by decide)))
  have h1 := h.1 s1 hs1
  exact ⟨s1, hs1, h1.2.2.2.2.2.2.2.2, h1.2.2.1, h1.2.2.2.2.1⟩

end Screenpos
